import Mathlib

/-!
Verification of the record-extraction pipeline of the Philippine
foreclosed-properties scraper.  Python functions from the repository are
shallowly embedded as executable Lean definitions (dictionaries become
association lists with Python insertion-order update semantics, cells that
may be None become Option String, exceptions become Option/Except), and the
specification claims are settled as theorems about those definitions.
-/

namespace Scraper

/-! ## Python-style primitives -/

/-- Helper for substring search: does the needle occur as a prefix of any
suffix of the haystack. -/
def containsAux (needle : List Char) : List Char → Bool
  | [] => needle.isEmpty
  | c :: rest => needle.isPrefixOf (c :: rest) || containsAux needle rest

/-- Substring test, mirroring the Python expression needle in hay. -/
def strContains (hay needle : String) : Bool :=
  containsAux needle.toList hay.toList

/-- Python str.upper for the ASCII strings the scraper handles. -/
def pyUpper (s : String) : String := String.mk (s.toList.map Char.toUpper)

/-- Python str.lower for the ASCII strings the scraper handles. -/
def pyLower (s : String) : String := String.mk (s.toList.map Char.toLower)

/-- Python str.strip: drop leading and trailing whitespace. -/
def pyStrip (s : String) : String :=
  String.mk
    (((s.toList.dropWhile Char.isWhitespace).reverse.dropWhile
      Char.isWhitespace).reverse)

/-- Python str.startswith. -/
def pyStartsWith (s pre : String) : Bool :=
  pre.toList.isPrefixOf s.toList

/-- Python sep.join(parts). -/
def pyJoin (sep : String) : List String → String
  | [] => ""
  | x :: xs => xs.foldl (fun acc y => acc ++ sep ++ y) x

/-- Helper for pySplit: cut the character list at every non-overlapping
occurrence of the separator, scanning left to right, with fuel bounding
the recursion. -/
def pySplitAux (sep : List Char) : Nat → List Char → List Char →
    List (List Char)
  | _, acc, [] => [acc.reverse]
  | 0, acc, l => [acc.reverse ++ l]
  | n + 1, acc, c :: rest =>
    if sep ≠ [] ∧ sep.isPrefixOf (c :: rest) then
      acc.reverse :: pySplitAux sep n [] ((c :: rest).drop sep.length)
    else pySplitAux sep n (c :: acc) rest

/-- Python s.split(sep) for a non-empty separator. -/
def pySplit (s sep : String) : List String :=
  (pySplitAux sep.toList s.toList.length [] s.toList).map String.mk

/-- Python dictionary lookup d.get(k): first binding of the key, if any. -/
def dictGet {α : Type} (d : List (String × α)) (k : String) : Option α :=
  (d.find? (fun p => p.1 == k)).map Prod.snd

/-- Python dictionary assignment d[k] = v: overwrite in place when the key
exists (keeping its position), append otherwise. -/
def dictSet {α : Type} (d : List (String × α)) (k : String) (v : α) :
    List (String × α) :=
  if (d.map Prod.fst).contains k then
    d.map (fun p => if p.1 == k then (p.1, v) else p)
  else d ++ [(k, v)]

/-- Key list of a dictionary, in insertion order. -/
def dictKeys {α : Type} (d : List (String × α)) : List String :=
  d.map Prod.fst

/-! ## Deduplication (claim C2)

Embedding of BPIManualHTMLParser.save_properties (the dedup loop over
seen_ids / seen_urls) and of EastwestBankScraper.remove_duplicates.
Records are reduced to the fields the two functions consult, plus an opaque
payload so that distinct records can share key values. -/

/-- Identity-relevant projection of a BPI property record: the values of
property_id and detail_url (empty string when the key is missing, as
Python dict.get with default returns) plus an opaque payload tag. -/
structure BPIRec where
  propertyId : String
  detailUrl : String
  payload : Nat
  deriving DecidableEq, Repr

/-- Truthiness-and-sentinel test used by save_properties: the Python
condition prop_id and prop_id != NA. -/
def keyUsable (s : String) : Bool := s ≠ "" && s ≠ "NA"

/-- Loop body of BPIManualHTMLParser.save_properties: walk the records,
tracking the sets of already-seen property ids and detail URLs; a record
with a usable property_id is kept iff its id is fresh, otherwise a record
with a usable detail_url is kept iff its URL is fresh, otherwise the record
is always kept. -/
def bpiDedupAux : List BPIRec → List String → List String → List BPIRec
  | [], _, _ => []
  | p :: rest, seenIds, seenUrls =>
    if keyUsable p.propertyId then
      if seenIds.contains p.propertyId then bpiDedupAux rest seenIds seenUrls
      else p :: bpiDedupAux rest (p.propertyId :: seenIds) seenUrls
    else if keyUsable p.detailUrl then
      if seenUrls.contains p.detailUrl then bpiDedupAux rest seenIds seenUrls
      else p :: bpiDedupAux rest seenIds (p.detailUrl :: seenUrls)
    else p :: bpiDedupAux rest seenIds seenUrls

/-- Deduplication performed by BPIManualHTMLParser.save_properties. -/
def bpiDedup (l : List BPIRec) : List BPIRec := bpiDedupAux l [] []

/-- Identity-relevant projection of an Eastwest property record: values of
property_no and url (empty when missing) plus an opaque payload tag. -/
structure EWRec where
  propertyNo : String
  url : String
  payload : Nat
  deriving DecidableEq, Repr

/-- Composite dedup key built by EastwestBankScraper.remove_duplicates. -/
def ewKey (p : EWRec) : String := p.propertyNo ++ "|" ++ p.url

/-- Loop body of EastwestBankScraper.remove_duplicates: keep a record iff
its composite property_no|url key has not been seen before. -/
def ewDedupAux : List EWRec → List String → List EWRec
  | [], _ => []
  | p :: rest, seen =>
    if seen.contains (ewKey p) then ewDedupAux rest seen
    else p :: ewDedupAux rest (ewKey p :: seen)

/-- Deduplication performed by EastwestBankScraper.remove_duplicates. -/
def ewDedup (l : List EWRec) : List EWRec := ewDedupAux l []

/-- Sentinel-valued BPI record: both candidate identity keys are empty or
the NA sentinel, so save_properties always keeps it. -/
def bpiSentinel (p : BPIRec) : Bool :=
  !keyUsable p.propertyId && !keyUsable p.detailUrl

/-- Identity key realised by the fallback chain of save_properties: the
property id when usable, else the detail URL when usable, else no key at
all; the Boolean tag keeps id keys and URL keys apart, mirroring the two
separate seen sets of the loop. -/
def bpiKey (p : BPIRec) : Option (Bool × String) :=
  if keyUsable p.propertyId then some (true, p.propertyId)
  else if keyUsable p.detailUrl then some (false, p.detailUrl)
  else none

/-- Membership of a tagged key in the pair of seen sets of
save_properties. -/
def bpiSeen : Bool × String → List String → List String → Prop
  | (true, s), ids, _ => s ∈ ids
  | (false, s), _, urls => s ∈ urls

/-- Specification of stable first-occurrence deduplication: scan left to
right and keep an element iff it has no key or its key has not occurred
before. -/
def keepFirstBy {α κ : Type} [DecidableEq κ] (key : α → Option κ) :
    List α → List κ → List α
  | [], _ => []
  | p :: rest, prior =>
    match key p with
    | none => p :: keepFirstBy key rest prior
    | some k =>
      if k ∈ prior then keepFirstBy key rest prior
      else p :: keepFirstBy key rest (k :: prior)

/-! ## BPI single-property extraction (claims C1 and C9)

Embedding of BPIManualHTMLParser.extract_single_property.  A result-each
container is reduced to the parts the function reads: the first anchor
inside the first h4 (if any), the src attribute of the first img (if any),
and the stripped text of each paragraph in document order. -/

/-- Anchor element found inside the h4 of a result container: its href
attribute (empty string when the attribute is missing, as link.get with
default returns) and its stripped text. -/
structure BPILink where
  href : String
  text : String
  deriving DecidableEq, Repr

/-- Parts of one result-each container consulted by
extract_single_property. -/
structure BPIFragment where
  h4Link : Option BPILink
  imgSrc : Option String
  paragraphs : List String
  deriving DecidableEq, Repr

/-- Field names initialised by extract_single_property, in insertion
order. -/
def bpiFieldNames : List String :=
  ["property_id", "property_type", "title", "location", "address", "price",
   "image_url", "detail_url", "lot_area", "floor_area", "bedrooms",
   "bathrooms", "property_classification", "special_concerns",
   "sales_advisor", "contact_no", "alternate_contact",
   "alternate_contact_no"]

/-- Initial property dictionary: every declared field maps to the NA
sentinel. -/
def bpiInit : List (String × String) :=
  bpiFieldNames.map (fun k => (k, "NA"))

/-- Helper for pyReplace: replace every non-overlapping occurrence of the
pattern, scanning left to right, with fuel bounding the recursion. -/
def pyReplaceAux (pat rep : List Char) : Nat → List Char → List Char
  | _, [] => []
  | 0, l => l
  | n + 1, c :: rest =>
    if pat ≠ [] ∧ pat.isPrefixOf (c :: rest) then
      rep ++ pyReplaceAux pat rep n ((c :: rest).drop pat.length)
    else c :: pyReplaceAux pat rep n rest

/-- Python str.replace: replace every occurrence of pat by rep. -/
def pyReplace (s pat rep : String) : String :=
  String.mk (pyReplaceAux pat.toList rep.toList s.toList.length s.toList)

/-- Search for the regular expression /property/([^/]+) in a URL: scan for
an occurrence of the literal part followed by at least one character other
than a slash, and capture the maximal such run (re.search keeps scanning
when the group cannot match at an earlier occurrence). -/
def searchPropId : List Char → Option String
  | [] => none
  | c :: rest =>
    if ("/property/".toList).isPrefixOf (c :: rest) then
      let captured := ((c :: rest).drop "/property/".toList.length).takeWhile
        (fun d => d ≠ '/')
      if captured.isEmpty then searchPropId rest else some (String.mk captured)
    else searchPropId rest

/-- Match of the anchored regular expression ([^(]+) against a title: the
maximal nonempty prefix not containing an opening parenthesis. -/
def typeMatch (t : String) : Option String :=
  let cs := t.toList.takeWhile (fun d => d ≠ '(')
  if cs.isEmpty then none else some (String.mk cs)

/-- Href-dependent part of extract_single_property: a truthy href fills
detail_url, and its /property/ capture, when it matches, fills
property_id. -/
def bpiHrefSet (d : List (String × String)) (href : String) :
    List (String × String) :=
  if href ≠ "" then
    match searchPropId href.toList with
    | some pid => dictSet (dictSet d "detail_url" href) "property_id" pid
    | none => dictSet d "detail_url" href
  else d

/-- Title-dependent part of extract_single_property: the stripped prefix
before the first parenthesis, when the anchored match succeeds, fills
property_type. -/
def bpiTypeSet (d : List (String × String)) (t : String) :
    List (String × String) :=
  match typeMatch t with
  | some s => dictSet d "property_type" (pyStrip s)
  | none => d

/-- Steps of extract_single_property concerning the h4 anchor: detail_url
and property_id from the href, then title and property_type from the
anchor text. -/
def bpiLinkStep (d : List (String × String)) : Option BPILink →
    List (String × String)
  | none => d
  | some l => bpiTypeSet (dictSet (bpiHrefSet d l.href) "title" l.text) l.text

/-- Src rewriting of extract_single_property: strip a leading ./ or
prepend the site root to other non-absolute URLs. -/
def bpiFixSrc (src : String) : String :=
  if pyStartsWith src "./" then String.mk (src.toList.drop 2)
  else if !pyStartsWith src "http" then "https://www.buenamano.ph/" ++ src
  else src

/-- Step of extract_single_property concerning the img element: a truthy
src is rewritten and stored as image_url. -/
def bpiImgStep (d : List (String × String)) : Option String →
    List (String × String)
  | none => d
  | some src => if src ≠ "" then dictSet d "image_url" (bpiFixSrc src) else d

/-- Loop body of the paragraph scan in extract_single_property: a
paragraph starting with the Location: label fills location, one starting
with Price: fills price, and the first other nonempty paragraph fills
address while address still holds the NA sentinel. -/
def bpiParaStep (d : List (String × String)) (text : String) :
    List (String × String) :=
  if pyStartsWith text "Location:" then
    dictSet d "location" (pyStrip (pyReplace text "Location:" ""))
  else if pyStartsWith text "Price:" then
    dictSet d "price" (pyStrip (pyReplace text "Price:" ""))
  else if text ≠ "" then
    if dictGet d "address" = some "NA" then dictSet d "address" text else d
  else d

/-- Embedding of BPIManualHTMLParser.extract_single_property. -/
def bpiExtractSingle (f : BPIFragment) : List (String × String) :=
  (f.paragraphs.foldl bpiParaStep
    (bpiImgStep (bpiLinkStep bpiInit f.h4Link) f.imgSrc))

/-! ## Base-scraper record normalisation (claims C1 and C10) -/

/-- Field names expected by BaseBankScraper.normalize_data. -/
def expectedFields : List String :=
  ["title", "classification", "area", "floor_area", "location", "province",
   "price", "comments", "photo_url"]

/-- Key normalisation of normalize_data: lower-case the key and replace
spaces by underscores. -/
def normKey (k : String) : String :=
  pyReplace (pyLower k) " " "_"

/-- Loop body of normalize_data: copy an input entry over when its
normalised key is among the expected keys and its value is truthy. -/
def normStep (acc : List (String × String)) (kv : String × String) :
    List (String × String) :=
  if (dictKeys acc).contains (normKey kv.1) && kv.2 ≠ "" then
    dictSet acc (normKey kv.1) kv.2
  else acc

/-- Embedding of BaseBankScraper.normalize_data: start from a dictionary
holding the NA sentinel for every expected field, then copy over each
input entry whose lowercased underscore-joined key is expected and whose
value is truthy. -/
def normalizeData (d : List (String × String)) : List (String × String) :=
  d.foldl normStep (expectedFields.map (fun k => (k, "NA")))

/-! ## Eastwest boundary-marker locator (claim C3)

Embedding of EastwestBankScraper.find_property_blocks over a reduced HTML
tree: each element keeps its tag name, its class attribute values and its
children. -/

/-- Reduced HTML element tree. -/
inductive Node where
  | mk (tag : String) (classes : List String) (children : List Node)
  deriving Repr

/-- Tag name of an element. -/
def Node.tag : Node → String
  | .mk t _ _ => t

/-- Class attribute values of an element. -/
def Node.classes : Node → List String
  | .mk _ c _ => c

/-- Child elements of an element. -/
def Node.children : Node → List Node
  | .mk _ _ cs => cs

mutual

/-- Descendants of a node in document (pre-) order, each paired with its
chain of ancestors, nearest first; anc is the ancestor chain of the node
itself. -/
def withAnc : Node → List Node → List (Node × List Node)
  | .mk t c cs, anc => withAncList cs (Node.mk t c cs :: anc)

/-- Helper of withAnc over a list of siblings sharing the ancestor
chain anc. -/
def withAncList : List Node → List Node → List (Node × List Node)
  | [], _ => []
  | c :: cs, anc => (c, anc) :: withAnc c anc ++ withAncList cs anc

end

/-- Descendants of a node in document order, as soup.find_all iterates
them. -/
def descendants (n : Node) : List Node :=
  (withAnc n []).map Prod.fst

/-- Class-attribute membership test, as BeautifulSoup class_ filters
match. -/
def hasClass (cl : String) (n : Node) : Bool :=
  n.classes.contains cl

/-- Filter used by find(div, class_=cl): a div element carrying the
class. -/
def isDivClass (cl : String) (n : Node) : Bool :=
  n.tag == "div" && hasClass cl n

/-- Container test: find(div, class_=content_card-title) succeeds below
the node. -/
def ewHasTitle (n : Node) : Bool :=
  ((descendants n).find? (isDivClass "content_card-title")).isSome

/-- Container test: find(div, class_=call-to-actions) succeeds below the
node. -/
def ewHasActions (n : Node) : Bool :=
  ((descendants n).find? (isDivClass "call-to-actions")).isSome

/-- Number of content_card-info-block divs below the node. -/
def ewInfoCount (n : Node) : Nat :=
  ((descendants n).filter (isDivClass "content_card-info-block")).length

/-- Method 1 of find_property_blocks: every div, section or article
descendant having a title marker, an actions marker and at least three
info blocks. -/
def ewMethod1 (doc : Node) : List Node :=
  (descendants doc).filter (fun c =>
    (c.tag == "div" || c.tag == "section" || c.tag == "article") &&
    ewHasTitle c && ewHasActions c && decide (ewInfoCount c ≥ 3))

/-- Qualifying test of the method-2 ancestor walk: the ancestor contains a
call-to-actions div and at least three info blocks. -/
def ewQualifies2 (a : Node) : Bool :=
  ewHasActions a && decide (ewInfoCount a ≥ 3)

/-- Method 2 of find_property_blocks: from each content_card-title div,
walk the ancestor chain upward, stopping at a body element, and keep the
first qualifying ancestor. -/
def ewMethod2 (doc : Node) : List Node :=
  ((withAnc doc []).filter (fun p => isDivClass "content_card-title" p.1)).filterMap
    (fun p => (p.2.takeWhile (fun a => a.tag != "body")).find? ewQualifies2)

/-- Qualifying test of the method-3 ancestor walk: the ancestor contains a
content_card-title div and at least three info blocks. -/
def ewQualifies3 (a : Node) : Bool :=
  ewHasTitle a && decide (ewInfoCount a ≥ 3)

/-- Method 3 of find_property_blocks: the same ancestor walk anchored at
each call-to-actions div. -/
def ewMethod3 (doc : Node) : List Node :=
  ((withAnc doc []).filter (fun p => isDivClass "call-to-actions" p.1)).filterMap
    (fun p => (p.2.takeWhile (fun a => a.tag != "body")).find? ewQualifies3)

/-- Embedding of EastwestBankScraper.find_property_blocks: the three
passes are tried in order and a later pass runs only when every earlier
pass produced no blocks. -/
def findPropertyBlocks (doc : Node) : List Node :=
  let m1 := ewMethod1 doc
  if m1.isEmpty then
    let m2 := ewMethod2 doc
    if m2.isEmpty then ewMethod3 doc else m2
  else m1

/-! ## Metrobank tabular locator (claims C4, C6 and C8)

Embedding of MetrobankScraper.process_table together with the row
classifiers is_header_row, is_disclaimer_row and has_meaningful_data.
Raw PDF cells are Option String (None or text). -/

/-- Cleaned cell list of a raw row: str(cell).strip() if cell else the
empty string. -/
def rowStr (row : List (Option String)) : List String :=
  row.map (fun c =>
    match c with
    | some s => if s ≠ "" then pyStrip s else ""
    | none => "")

/-- Header keywords recognised by is_header_row. -/
def headerKeywords : List String :=
  ["PROPERTY", "LOCATION", "PRICE", "AREA", "DESCRIPTION", "TYPE",
   "CLASSIFICATION", "STATUS"]

/-- Disclaimer keywords recognised by is_disclaimer_row. -/
def disclaimerKeywords : List String :=
  ["disclaimer", "as-is", "where-is", "no recourse", "warranties",
   "buybacks"]

/-- Upper-cased join of a cleaned row, as is_header_row builds row_text. -/
def mbRowText (row : List String) : String :=
  pyUpper (pyJoin " " row)

/-- Number of recognised header keywords occurring in the row text. -/
def keywordCount (row : List String) : Nat :=
  (headerKeywords.filter (fun k => strContains (mbRowText row) k)).length

/-- Embedding of MetrobankScraper.is_header_row.  The Python comparison
keyword_count >= len(header_keywords) * 0.3 is between an integer and the
float 2.4000000000000004; on integers it agrees with the rational
comparison 10 * count >= 3 * len rendered here, since no integer lies
between 2.4 and that float. -/
def isHeaderRow (row : List String) : Bool :=
  if row.isEmpty then false
  else decide (10 * keywordCount row ≥ 3 * headerKeywords.length)

/-- Embedding of MetrobankScraper.is_disclaimer_row. -/
def isDisclaimerRow (row : List String) : Bool :=
  if row.isEmpty then false
  else disclaimerKeywords.any (fun k =>
    strContains (pyLower (pyJoin " " row)) k)

/-- Header-row condition of the first loop of process_table: a non-empty
row, no cell containing the word disclaimer, at least one of seven
keywords in the joined upper-cased text, none of four disclaimer phrases,
and at least three cells longer than five characters. -/
def mbHeaderCond (row : List (Option String)) : Bool :=
  if row.isEmpty then false
  else
    let rs := rowStr row
    if rs.any (fun cell => cell ≠ "" && strContains (pyLower cell) "disclaimer")
    then false
    else
      let rt := pyUpper (pyJoin " " rs)
      (["PROPERTY", "LOCATION", "PRICE", "AREA", "DESCRIPTION", "TYPE",
        "CLASSIFICATION"].any (fun k => strContains rt k)) &&
      !(["DISCLAIMER", "AS-IS", "WHERE-IS", "NO RECOURSE"].any
        (fun k => strContains rt k)) &&
      decide ((rs.filter (fun c => c ≠ "" && c.length > 5)).length ≥ 3)

/-- Scan of the first loop of process_table: cleaned header row of the
first row satisfying the header condition, together with the rows after
it. -/
def mbFindHeader :
    List (List (Option String)) →
    Option (List String × List (List (Option String)))
  | [] => none
  | r :: rest =>
    if mbHeaderCond r then some (rowStr r, rest) else mbFindHeader rest

/-- Record built from a data row: position j of the header names column j
of the row, with the empty string past the end of the row; duplicate
header names overwrite in place as Python dictionaries do. -/
def mbBuildRec (header rs : List String) : List (String × String) :=
  (header.zip (rs ++ List.replicate header.length "")).foldl
    (fun acc kv => dictSet acc kv.1 kv.2) []

/-- Fields consulted by has_meaningful_data. -/
def meaningfulFields : List String :=
  ["PROPERTY", "LOCATION", "PRICE", "AREA", "DESCRIPTION"]

/-- Embedding of MetrobankScraper.has_meaningful_data: some entry whose
upper-cased key contains a meaningful field name holds a non-blank
value. -/
def hasMeaningfulData (d : List (String × String)) : Bool :=
  meaningfulFields.any (fun f =>
    d.any (fun kv =>
      strContains (pyUpper kv.1) f && kv.2 ≠ "" && pyStrip kv.2 ≠ ""))

/-- Data-row loop of process_table: rows after the header are scanned to
the end of the table; empty rows, rows with fewer than two non-empty
cells, and rows looking like a repeated header or a disclaimer are
skipped individually; remaining rows yield a record, kept only when it
has meaningful data. -/
def mbProcessRows (header : List String) :
    List (List (Option String)) → List (List (String × String))
  | [] => []
  | row :: rest =>
    if row.isEmpty then mbProcessRows header rest
    else
      let rs := rowStr row
      if !rs.any (fun c => c ≠ "") || (rs.filter (fun c => c ≠ "")).length < 2
      then mbProcessRows header rest
      else if isHeaderRow rs || isDisclaimerRow rs then mbProcessRows header rest
      else
        let prop := mbBuildRec header rs
        if hasMeaningfulData prop then prop :: mbProcessRows header rest
        else mbProcessRows header rest

/-- Embedding of MetrobankScraper.process_table. -/
def mbProcessTable (table : List (List (Option String))) :
    List (List (String × String)) :=
  match mbFindHeader table with
  | none => []
  | some (header, rest) => mbProcessRows header rest

/-- Row filter equivalent to the skip conditions of the data-row loop,
used to state the declarative characterisation of mbProcessRows. -/
def mbKeepRow (row : List (Option String)) : Bool :=
  !row.isEmpty &&
  (rowStr row).any (fun c => c ≠ "") &&
  decide (((rowStr row).filter (fun c => c ≠ "")).length ≥ 2) &&
  !isHeaderRow (rowStr row) && !isDisclaimerRow (rowStr row)

/-! ## PNB tabular pipeline with carry-over metadata (claims C5 and C6)

Embedding of PNBScraper.extract_property_list.  Cell values of the built
records are Option String because Python stores None for missing carry-over
metadata; the AttributeError raised when a metadata row starts with a None
cell is modelled by Except, and the enclosing try/except turns it into an
empty result. -/

/-- Python str(cell) of a raw cell: the literal None prints as the string
None. -/
def cellStr : Option String → String
  | some s => s
  | none => "None"

/-- State threaded through the PNB row scan: the header of the current
table and the carry-over metadata, which persists across tables and
pages. -/
structure PNBState where
  header : Option (List String)
  prov : Option String
  city : Option String
  contactP : Option String
  contactD : Option String
  deriving Repr, DecidableEq

/-- Header-row test of the PNB scan: a non-empty row with some cell whose
printed form contains Title_ID. -/
def pnbIsHeaderRow (row : List (Option String)) : Bool :=
  !row.isEmpty && row.any (fun c => strContains (cellStr c) "Title_ID")

/-- Metadata-row test of the PNB scan (reached only when a header has been
seen): exactly one cell is truthy with non-blank stripped text. -/
def pnbIsMetaRow (row : List (Option String)) : Bool :=
  !row.isEmpty &&
  (row.filter (fun c =>
    match c with
    | some s => s ≠ "" && pyStrip s ≠ ""
    | none => false)).length == 1

/-- Main property fields of a PNB record. -/
def pnbMainFields : List String :=
  ["Title_ID", "Title/CR No.", "Location/Description", "Property use",
   "Area", "Floor Area", "Minimum Price", "# of Titles", "Status"]

/-- Keep test of the PNB scan: prop.get(f) not in [None, empty, dash] for
some main field. -/
def pnbMainOk (prop : List (String × Option String)) : Bool :=
  pnbMainFields.any (fun f =>
    match dictGet prop f with
    | some (some v) => v ≠ "" && v ≠ "-"
    | some none => false
    | none => false)

/-- Record built from a PNB data row: zip of the header names with the raw
row padded by None, then the four carry-over fields injected on top,
independent of the per-column values. -/
def pnbBuildRec (st : PNBState) (h : List String)
    (row : List (Option String)) : List (String × Option String) :=
  let padded := row ++ List.replicate (h.length - row.length) none
  let prop := (h.zip padded).foldl (fun acc kv => dictSet acc kv.1 kv.2) []
  dictSet (dictSet (dictSet (dictSet prop
    "Province" st.prov)
    "City/Municipality" st.city)
    "Contact Person" st.contactP)
    "Contact Details" st.contactD

/-- One iteration of the PNB row loop: header detection, metadata
detection (with the AttributeError of a None first cell as an error),
skipping of blank and repeated-header rows, and record construction with
the main-field filter. -/
def pnbRowStep (st : PNBState) (row : List (Option String)) :
    Except Unit (PNBState × Option (List (String × Option String))) :=
  if pnbIsHeaderRow row then
    Except.ok ({ st with header := some (rowStr row) }, none)
  else if st.header.isSome && pnbIsMetaRow row then
    match row with
    | [] => Except.ok (st, none)
    | none :: _ => Except.error ()
    | some s :: _ =>
      let meta := (pySplit s "|").map pyStrip
      Except.ok ({ st with
        prov := meta.get? 0,
        city := meta.get? 1,
        contactP := meta.get? 2,
        contactD := meta.get? 3 }, none)
  else
    match st.header with
    | none => Except.ok (st, none)
    | some h =>
      if row.isEmpty ||
          row.all (fun c =>
            match c with
            | none => true
            | some s => pyStrip s = "") then
        Except.ok (st, none)
      else if row == h.map some then Except.ok (st, none)
      else
        let prop := pnbBuildRec st h row
        Except.ok (st, if pnbMainOk prop then some prop else none)

/-- Row loop of the PNB scan over one table, accumulating records in
order. -/
def pnbProcessRows (st : PNBState) :
    List (List (Option String)) →
    Except Unit (PNBState × List (List (String × Option String)))
  | [] => Except.ok (st, [])
  | row :: rest =>
    match pnbRowStep st row with
    | Except.error e => Except.error e
    | Except.ok (st1, r?) =>
      match pnbProcessRows st1 rest with
      | Except.error e => Except.error e
      | Except.ok (st2, recs) =>
        Except.ok (st2, match r? with
          | some r => r :: recs
          | none => recs)

/-- Table loop of the PNB scan: the header resets at each table while the
carry-over metadata persists. -/
def pnbProcessTables (st : PNBState) :
    List (List (List (Option String))) →
    Except Unit (PNBState × List (List (String × Option String)))
  | [] => Except.ok (st, [])
  | t :: ts =>
    match pnbProcessRows { st with header := none } t with
    | Except.error e => Except.error e
    | Except.ok (st1, recs) =>
      match pnbProcessTables st1 ts with
      | Except.error e => Except.error e
      | Except.ok (st2, more) => Except.ok (st2, recs ++ more)

/-- Embedding of PNBScraper.extract_property_list over already-decoded
tables: the carry-over metadata starts as None, and the enclosing
try/except turns any error into an empty result. -/
def pnbExtract (tables : List (List (List (Option String)))) :
    List (List (String × Option String)) :=
  match pnbProcessTables ⟨none, none, none, none, none⟩ tables with
  | Except.ok (_, recs) => recs
  | Except.error _ => []

/-! ## Orchestrator fragment loop (claim C7)

Embedding of the per-fragment try/except loops of
BPIManualHTMLParser.extract_properties_from_html and
EastwestBankScraper.extract_property_list: each fragment is extracted
independently; a fragment whose extraction fails (modelled as the
extractor returning none) is skipped and the loop continues with the
rest. -/

/-- Per-fragment extraction loop with failure isolation. -/
def extractLoop {α β : Type} (f : α → Option β) : List α → List β
  | [] => []
  | c :: rest =>
    match f c with
    | some r => r :: extractLoop f rest
    | none => extractLoop f rest

/-! ## Base scrape result cap (claim C10) -/

/-- Default of MAX_RESULTS_PER_BANK in utils/config.py: the value of
int(os.getenv(MAX_RESULTS_PER_BANK, 20)) when the environment variable is
unset. -/
def MAX_RESULTS_PER_BANK : Nat := 20

/-- Python slice l[:m]: everything for None, the first m entries for a
non-negative bound, and all but the last entries for a negative bound. -/
def pySliceUpTo {α : Type} (m : Option Int) (l : List α) : List α :=
  match m with
  | none => l
  | some i => if i < 0 then l.take (l.length - i.natAbs) else l.take i.toNat

/-- Embedding of BaseBankScraper.scrape after the property list has been
extracted: the list is truncated to max_results entries, then each
surviving property is finalised in order (detail update followed by
normalize_data) and the finalised list is both saved and returned. -/
def baseScrape {α : Type} (maxResults : Option Int) (finalize : α → α)
    (extracted : List α) : List α :=
  (pySliceUpTo maxResults extracted).map finalize

/-- The max_results value EastwestBankScraper.init hardcodes. -/
def eastwestMaxResults : Option Int := none

/-! ## Derived field functions and concrete inputs used by the claims -/

/-- Property type derived from a title by extract_single_property: the
stripped prefix before the first opening parenthesis, or the NA sentinel
when the title is empty or starts with a parenthesis. -/
def bpiTitleType (t : String) : String :=
  match typeMatch t with
  | some s => pyStrip s
  | none => "NA"

/-- Property id derived from a detail URL by extract_single_property: the
capture of /property/([^/]+), or the NA sentinel when the URL is empty or
the pattern does not occur. -/
def bpiUrlId (href : String) : String :=
  if href ≠ "" then
    match searchPropId href.toList with
    | some pid => pid
    | none => "NA"
  else "NA"

/-- Result container of the C9 scenario: anchor with a detail URL and the
scenario title. -/
def exBPIFrag : BPIFragment :=
  ⟨some ⟨"/property/03997-O-247", "House & Lot (03997-O-247)"⟩, none, []⟩

/-- Result container with the C9 scenario title but an empty href. -/
def exBPIFragNoUrl : BPIFragment :=
  ⟨some ⟨"", "House & Lot (03997-O-247)"⟩, none, []⟩

/-- Info-block div of the example Eastwest document. -/
def exInfoBlock : Node := Node.mk "div" ["content_card-info-block"] []

/-- Title div of the example Eastwest document. -/
def exTitleDiv : Node := Node.mk "div" ["content_card-title"] []

/-- Actions div of the example Eastwest document. -/
def exActionsDiv : Node := Node.mk "div" ["call-to-actions"] []

/-- Container of the example Eastwest document: a list item, which method
one never inspects because it only looks at div, section and article
elements. -/
def exLi : Node :=
  Node.mk "li" []
    [exTitleDiv, exActionsDiv, exInfoBlock, exInfoBlock, exInfoBlock]

/-- Example Eastwest document where the direct pass finds nothing but the
title-anchored ancestor walk succeeds at the list item. -/
def exDoc : Node :=
  Node.mk "[document]" []
    [Node.mk "html" [] [Node.mk "body" [] [Node.mk "ul" [] [exLi]]]]

/-- Metrobank example table with a second header-like row between two data
rows. -/
def exMBTable : List (List (Option String)) :=
  [[some "PROPERTY NUMBER", some "LOCATION DETAIL", some "PRICE AMOUNT"],
   [some "p1", some "loc1", some "100"],
   [some "PROPERTY NUMBER", some "LOCATION DETAIL", some "PRICE AMOUNT"],
   [some "p2", some "loc2", some "200"]]

/-- Metrobank example table whose only data row has two non-empty cells
but all of them beyond the header columns, so no field resolves. -/
def exMBDropTable : List (List (Option String)) :=
  [[some "PROPERTY NUMBER", some "LOCATION DETAIL", some "PRICE AMOUNT"],
   [none, none, none, some "a", some "b"]]

/-- PNB example table: header, metadata row, two data rows, a second
metadata row, one more data row. -/
def exPNBTable : List (List (Option String)) :=
  [[some "Title_ID", some "Location/Description"],
   [some "Laguna|Calamba|Juan|09171234567", none],
   [some "T-1", some "Lot in Calamba"],
   [some "T-2", some "House in Calamba"],
   [some "Batangas|Lipa", none],
   [some "T-3", some "Lot in Lipa"]]

/-- PNB example table whose data row resolves no main field: Title_ID is a
dash and the other column is not a main field. -/
def exPNBDropTable : List (List (Option String)) :=
  [[some "Title_ID", some "Foo"],
   [some "-", some "x"]]

end Scraper

namespace Scraper

/-! ## Helper lemmas about dictionaries -/

theorem find?_overwrite {α : Type} (d : List (String × α)) (k : String)
    (v : α) :
    (d.map (fun p => if p.1 == k then (p.1, v) else p)).find?
        (fun p => p.1 == k)
      = (d.find? (fun p => p.1 == k)).map (fun p => (p.1, v)) := by
  induction d with
  | nil => rfl
  | cons p rest ih =>
    by_cases hp : (p.1 == k) = true
    · rw [List.map_cons, if_pos hp]
      simp only [List.find?_cons, hp]
      rfl
    · have hp' : (p.1 == k) = false := by simpa using hp
      rw [List.map_cons, if_neg hp]
      simp only [List.find?_cons, hp', ih]

theorem find?_overwrite_ne {α : Type} (d : List (String × α)) (k k2 : String)
    (v : α) (hne : k ≠ k2) :
    (d.map (fun p => if p.1 == k then (p.1, v) else p)).find?
        (fun p => p.1 == k2)
      = d.find? (fun p => p.1 == k2) := by
  induction d with
  | nil => rfl
  | cons p rest ih =>
    by_cases hp : (p.1 == k) = true
    · have hp2 : (p.1 == k2) = false := by
        apply Bool.eq_false_iff.mpr
        intro h2
        exact hne ((eq_of_beq hp).symm.trans (eq_of_beq h2))
      rw [List.map_cons, if_pos hp]
      simp only [List.find?_cons, hp2, ih]
    · rw [List.map_cons, if_neg hp]
      by_cases hp2 : (p.1 == k2) = true
      · simp only [List.find?_cons, hp2]
      · have hp2' : (p.1 == k2) = false := by simpa using hp2
        simp only [List.find?_cons, hp2', ih]

theorem dictGet_dictSet_self {α : Type} (d : List (String × α)) (k : String)
    (v : α) : dictGet (dictSet d k v) k = some v := by
  unfold dictGet dictSet
  by_cases hc : (d.map Prod.fst).contains k
  · rw [if_pos hc, find?_overwrite]
    have hmem : k ∈ d.map Prod.fst := by simpa using hc
    rcases List.mem_map.mp hmem with ⟨p, hpd, hpk⟩
    have : d.find? (fun p => p.1 == k) ≠ none := by
      intro hn
      exact absurd (by simpa using hpk) (List.find?_eq_none.mp hn p hpd)
    rcases Option.ne_none_iff_exists.mp this with ⟨q, hq⟩
    rw [← hq]
    rfl
  · rw [if_neg hc, List.find?_append]
    have hnone : d.find? (fun p => p.1 == k) = none := by
      apply List.find?_eq_none.mpr
      intro p hpd hpk
      refine hc ?_
      have : k ∈ d.map Prod.fst := List.mem_map.mpr ⟨p, hpd, eq_of_beq hpk⟩
      simpa using this
    rw [hnone]
    simp [List.find?]

theorem dictGet_dictSet_ne {α : Type} (d : List (String × α)) (k k2 : String)
    (v : α) (hne : k ≠ k2) :
    dictGet (dictSet d k v) k2 = dictGet d k2 := by
  unfold dictGet dictSet
  by_cases hc : (d.map Prod.fst).contains k
  · rw [if_pos hc, find?_overwrite_ne _ _ _ _ hne]
  · rw [if_neg hc, List.find?_append]
    have hlast : ([(k, v)].find? (fun p => p.1 == k2)) = none := by
      have hkk : ((k, v).1 == k2) = false := by
        apply Bool.eq_false_iff.mpr
        intro h
        exact hne (eq_of_beq h)
      simp only [List.find?_cons, hkk, List.find?_nil]
    rw [hlast]
    cases d.find? (fun p => p.1 == k2) <;> rfl

theorem dictGet_isSome_of_mem_keys {α : Type} (d : List (String × α))
    (k : String) (h : k ∈ dictKeys d) : ∃ v, dictGet d k = some v := by
  induction d with
  | nil => cases h
  | cons p rest ih =>
    by_cases hp : (p.1 == k) = true
    · refine ⟨p.2, ?_⟩
      unfold dictGet
      simp only [List.find?_cons, hp]
      rfl
    · have hp' : (p.1 == k) = false := by simpa using hp
      have hk : k ∈ dictKeys rest := by
        rcases List.mem_cons.mp h with he | he
        · exact absurd (by simpa using he.symm) hp
        · exact he
      rcases ih hk with ⟨v, hv⟩
      refine ⟨v, ?_⟩
      unfold dictGet at *
      simp only [List.find?_cons, hp']
      exact hv

theorem dictKeys_dictSet {α : Type} (d : List (String × α)) (k : String)
    (v : α) (hk : (dictKeys d).contains k) :
    dictKeys (dictSet d k v) = dictKeys d := by
  unfold dictSet dictKeys at *
  rw [if_pos hk]
  simp only [List.map_map]
  apply List.map_congr_left
  intro p _
  simp only [Function.comp_apply]
  by_cases h : p.1 == k
  · rw [if_pos h]
  · rw [if_neg h]

theorem bpiDedupAux_sublist (l : List BPIRec) (ids urls : List String) :
    (bpiDedupAux l ids urls).Sublist l := by
  induction l generalizing ids urls with
  | nil => simp [bpiDedupAux]
  | cons p rest ih =>
    unfold bpiDedupAux
    repeat' split
    all_goals first
      | exact List.Sublist.cons p (ih _ _)
      | exact List.Sublist.cons₂ p (ih _ _)

theorem bpiDedupAux_keeps_sentinels (l : List BPIRec) (ids urls : List String) :
    (bpiDedupAux l ids urls).filter bpiSentinel = l.filter bpiSentinel := by
  induction l generalizing ids urls with
  | nil => simp [bpiDedupAux]
  | cons p rest ih =>
    unfold bpiDedupAux
    by_cases h1 : keyUsable p.propertyId
    · have hs : bpiSentinel p = false := by
        simp [bpiSentinel, h1]
      rw [if_pos h1]
      split
      · rw [ih, List.filter_cons, hs]
        simp
      · rw [List.filter_cons, List.filter_cons, hs]
        simp only [Bool.false_eq_true, if_neg]
        exact ih _ _
    · rw [if_neg h1]
      by_cases h2 : keyUsable p.detailUrl
      · have hs : bpiSentinel p = false := by
          simp [bpiSentinel, h2]
        rw [if_pos h2]
        split
        · rw [ih, List.filter_cons, hs]
          simp
        · rw [List.filter_cons, List.filter_cons, hs]
          simp only [Bool.false_eq_true, if_neg]
          exact ih _ _
      · rw [if_neg h2, List.filter_cons, List.filter_cons]
        by_cases hs : bpiSentinel p = true
        · simp only [hs, if_pos]
          rw [ih]
        · simp only [hs]
          simp only [Bool.false_eq_true, if_neg]
          exact ih _ _

theorem ewDedupAux_sublist (l : List EWRec) (seen : List String) :
    (ewDedupAux l seen).Sublist l := by
  induction l generalizing seen with
  | nil => simp [ewDedupAux]
  | cons p rest ih =>
    unfold ewDedupAux
    split
    · exact List.Sublist.cons p (ih _)
    · exact List.Sublist.cons₂ p (ih _)

theorem ewDedupAux_covers (l : List EWRec) (seen : List String) (p : EWRec) :
    p ∈ l → ewKey p ∈ seen ∨ ∃ q ∈ ewDedupAux l seen, ewKey q = ewKey p := by
  induction l generalizing seen with
  | nil => intro hp; cases hp
  | cons a rest ih =>
    intro hp
    unfold ewDedupAux
    rcases List.mem_cons.mp hp with hp | hp
    · subst hp
      by_cases h : seen.contains (ewKey p)
      · left
        simpa using h
      · right
        refine ⟨p, ?_, rfl⟩
        have h' : ewKey p ∉ seen := by simpa using h
        simp [h']
    · by_cases h : seen.contains (ewKey a)
      · rw [if_pos h]
        exact ih seen hp
      · rw [if_neg h]
        rcases ih (ewKey a :: seen) hp with hmem | ⟨q, hq, hqe⟩
        · rcases List.mem_cons.mp hmem with he | he
          · right
            exact ⟨a, List.mem_cons_self _ _, he.symm⟩
          · left
            exact he
        · right
          exact ⟨q, List.mem_cons_of_mem _ hq, hqe⟩

/-! ## First-occurrence characterisation of the deduplicators -/

theorem keepFirstBy_cons_none {α κ : Type} [DecidableEq κ]
    (key : α → Option κ) (p : α) (rest : List α) (prior : List κ)
    (hk : key p = none) :
    keepFirstBy key (p :: rest) prior = p :: keepFirstBy key rest prior := by
  conv_lhs => unfold keepFirstBy
  rw [hk]

theorem keepFirstBy_cons_some {α κ : Type} [DecidableEq κ]
    (key : α → Option κ) (p : α) (rest : List α) (prior : List κ)
    (k : κ) (hk : key p = some k) :
    keepFirstBy key (p :: rest) prior =
      if k ∈ prior then keepFirstBy key rest prior
      else p :: keepFirstBy key rest (k :: prior) := by
  conv_lhs => unfold keepFirstBy
  rw [hk]

theorem keepFirstBy_pairwise {α κ : Type} [DecidableEq κ]
    (key : α → Option κ) (l : List α) (prior : List κ) :
    (keepFirstBy key l prior).Pairwise
      (fun a b => ∀ k, key a = some k → key b ≠ some k) ∧
    (∀ q ∈ keepFirstBy key l prior, ∀ k, key q = some k → k ∉ prior) := by
  induction l generalizing prior with
  | nil => exact ⟨List.Pairwise.nil, fun q hq => absurd hq (List.not_mem_nil q)⟩
  | cons p rest ih =>
    cases hk : key p with
    | none =>
      rw [keepFirstBy_cons_none key p rest prior hk]
      obtain ⟨ihp, ihm⟩ := ih prior
      refine ⟨List.Pairwise.cons ?_ ihp, ?_⟩
      · intro b _ k hpk
        rw [hk] at hpk
        cases hpk
      · intro q hq k hqk
        rcases List.mem_cons.mp hq with rfl | hq
        · rw [hk] at hqk
          cases hqk
        · exact ihm q hq k hqk
    | some k0 =>
      rw [keepFirstBy_cons_some key p rest prior k0 hk]
      by_cases hmem : k0 ∈ prior
      · rw [if_pos hmem]
        exact ih prior
      · rw [if_neg hmem]
        obtain ⟨ihp, ihm⟩ := ih (k0 :: prior)
        refine ⟨List.Pairwise.cons ?_ ihp, ?_⟩
        · intro b hb k hpk
          rw [hk] at hpk
          injection hpk with hpk
          subst hpk
          intro hbk
          exact ihm b hb k0 hbk (List.mem_cons_self _ _)
        · intro q hq k hqk
          rcases List.mem_cons.mp hq with rfl | hq
          · rw [hk] at hqk
            injection hqk with h
            subst h
            exact hmem
          · intro hkp
            exact ihm q hq k hqk (List.mem_cons_of_mem _ hkp)

theorem keepFirstBy_keep_none {α κ : Type} [DecidableEq κ]
    (key : α → Option κ) (l1 : List α) (p : α) (l2 : List α)
    (prior : List κ) (hk : key p = none) :
    p ∈ keepFirstBy key (l1 ++ p :: l2) prior := by
  induction l1 generalizing prior with
  | nil =>
    rw [List.nil_append, keepFirstBy_cons_none key p l2 prior hk]
    exact List.mem_cons_self _ _
  | cons a l1 ih =>
    rw [List.cons_append]
    cases hka : key a with
    | none =>
      rw [keepFirstBy_cons_none key a _ prior hka]
      exact List.mem_cons_of_mem _ (ih prior)
    | some k0 =>
      rw [keepFirstBy_cons_some key a _ prior k0 hka]
      by_cases hmem : k0 ∈ prior
      · rw [if_pos hmem]
        exact ih prior
      · rw [if_neg hmem]
        exact List.mem_cons_of_mem _ (ih (k0 :: prior))

theorem keepFirstBy_keep_some {α κ : Type} [DecidableEq κ]
    (key : α → Option κ) (l1 : List α) (p : α) (l2 : List α)
    (prior : List κ) (k : κ) (hk : key p = some k) (hp : k ∉ prior)
    (hl1 : ∀ q ∈ l1, key q ≠ some k) :
    p ∈ keepFirstBy key (l1 ++ p :: l2) prior := by
  induction l1 generalizing prior with
  | nil =>
    rw [List.nil_append, keepFirstBy_cons_some key p l2 prior k hk,
      if_neg hp]
    exact List.mem_cons_self _ _
  | cons a l1 ih =>
    have hl1t : ∀ q ∈ l1, key q ≠ some k :=
      fun q hq => hl1 q (List.mem_cons_of_mem _ hq)
    rw [List.cons_append]
    cases hka : key a with
    | none =>
      rw [keepFirstBy_cons_none key a _ prior hka]
      exact List.mem_cons_of_mem _ (ih prior hp hl1t)
    | some k0 =>
      rw [keepFirstBy_cons_some key a _ prior k0 hka]
      by_cases hmem : k0 ∈ prior
      · rw [if_pos hmem]
        exact ih prior hp hl1t
      · rw [if_neg hmem]
        refine List.mem_cons_of_mem _ (ih (k0 :: prior) ?_ hl1t)
        intro hkm
        rcases List.mem_cons.mp hkm with he | hs
        · exact hl1 a (List.mem_cons_self _ _) (by rw [hka, he])
        · exact hp hs

theorem keepFirstBy_drop {α κ : Type} [DecidableEq κ]
    (key : α → Option κ) (l1 : List α) (p : α) (l2 : List α)
    (prior : List κ) (k : κ) (hk : key p = some k)
    (hin : k ∈ prior ∨ ∃ q ∈ l1, key q = some k) :
    keepFirstBy key (l1 ++ p :: l2) prior
      = keepFirstBy key (l1 ++ l2) prior := by
  induction l1 generalizing prior with
  | nil =>
    have hp : k ∈ prior := by
      rcases hin with h | ⟨q, hq, _⟩
      · exact h
      · cases hq
    rw [List.nil_append, List.nil_append,
      keepFirstBy_cons_some key p l2 prior k hk, if_pos hp]
  | cons a l1 ih =>
    rw [List.cons_append, List.cons_append]
    cases hka : key a with
    | none =>
      rw [keepFirstBy_cons_none key a _ prior hka,
        keepFirstBy_cons_none key a _ prior hka]
      rw [ih prior ?_]
      rcases hin with h | ⟨q, hq, hqk⟩
      · exact Or.inl h
      · rcases List.mem_cons.mp hq with rfl | hq
        · rw [hka] at hqk
          cases hqk
        · exact Or.inr ⟨q, hq, hqk⟩
    | some k0 =>
      rw [keepFirstBy_cons_some key a _ prior k0 hka,
        keepFirstBy_cons_some key a _ prior k0 hka]
      by_cases hmem : k0 ∈ prior
      · rw [if_pos hmem, if_pos hmem]
        rw [ih prior ?_]
        rcases hin with h | ⟨q, hq, hqk⟩
        · exact Or.inl h
        · rcases List.mem_cons.mp hq with rfl | hq
          · rw [hka] at hqk
            injection hqk with he
            rw [he] at hmem
            exact Or.inl hmem
          · exact Or.inr ⟨q, hq, hqk⟩
      · rw [if_neg hmem, if_neg hmem]
        rw [ih (k0 :: prior) ?_]
        rcases hin with h | ⟨q, hq, hqk⟩
        · exact Or.inl (List.mem_cons_of_mem _ h)
        · rcases List.mem_cons.mp hq with rfl | hq
          · rw [hka] at hqk
            injection hqk with he
            rw [he]
            exact Or.inl (List.mem_cons_self _ _)
          · exact Or.inr ⟨q, hq, hqk⟩

theorem ewDedupAux_eq_keepFirstBy (l : List EWRec) (seen : List String) :
    ewDedupAux l seen
      = keepFirstBy (fun q => some (ewKey q)) l seen := by
  induction l generalizing seen with
  | nil => rfl
  | cons p rest ih =>
    have hL : ewDedupAux (p :: rest) seen =
        if seen.contains (ewKey p) then ewDedupAux rest seen
        else p :: ewDedupAux rest (ewKey p :: seen) := rfl
    rw [hL, keepFirstBy_cons_some (fun q : EWRec => some (ewKey q)) p rest
      seen (ewKey p) rfl]
    by_cases h : ewKey p ∈ seen
    · rw [if_pos (by simpa using h), if_pos h]
      exact ih seen
    · rw [if_neg (by simpa using h), if_neg h, ih (ewKey p :: seen)]

theorem bpiDedupAux_eq_keepFirstBy (l : List BPIRec) (ids urls : List String)
    (prior : List (Bool × String))
    (hcorr : ∀ k, k ∈ prior ↔ bpiSeen k ids urls) :
    bpiDedupAux l ids urls = keepFirstBy bpiKey l prior := by
  induction l generalizing ids urls prior with
  | nil => rfl
  | cons p rest ih =>
    by_cases h1 : keyUsable p.propertyId = true
    · have hk : bpiKey p = some (true, p.propertyId) := by
        unfold bpiKey
        rw [if_pos h1]
      have hL : bpiDedupAux (p :: rest) ids urls =
          if ids.contains p.propertyId then bpiDedupAux rest ids urls
          else p :: bpiDedupAux rest (p.propertyId :: ids) urls := by
        conv_lhs => unfold bpiDedupAux
        rw [if_pos h1]
      rw [hL,
        keepFirstBy_cons_some bpiKey p rest prior (true, p.propertyId) hk]
      have hmemiff : (true, p.propertyId) ∈ prior ↔ p.propertyId ∈ ids :=
        hcorr _
      by_cases hm : p.propertyId ∈ ids
      · rw [if_pos (by simpa using hm), if_pos (hmemiff.mpr hm)]
        exact ih ids urls prior hcorr
      · rw [if_neg (by simpa using hm),
          if_neg (fun hc => hm (hmemiff.mp hc))]
        congr 1
        apply ih (p.propertyId :: ids) urls ((true, p.propertyId) :: prior)
        intro k
        obtain ⟨kb, ks⟩ := k
        cases kb with
        | true =>
          show (true, ks) ∈ (true, p.propertyId) :: prior ↔
            ks ∈ p.propertyId :: ids
          constructor
          · intro hkm
            rcases List.mem_cons.mp hkm with he | hkm
            · exact List.mem_cons.mpr (Or.inl (congrArg Prod.snd he))
            · exact List.mem_cons_of_mem _ ((hcorr (true, ks)).mp hkm)
          · intro hks
            rcases List.mem_cons.mp hks with he | hks
            · exact List.mem_cons.mpr (Or.inl (by rw [he]))
            · exact List.mem_cons_of_mem _ ((hcorr (true, ks)).mpr hks)
        | false =>
          show (false, ks) ∈ (true, p.propertyId) :: prior ↔ ks ∈ urls
          constructor
          · intro hkm
            rcases List.mem_cons.mp hkm with he | hkm
            · injection he with hb _
              cases hb
            · exact (hcorr (false, ks)).mp hkm
          · intro hks
            exact List.mem_cons_of_mem _ ((hcorr (false, ks)).mpr hks)
    · by_cases h2 : keyUsable p.detailUrl = true
      · have hk : bpiKey p = some (false, p.detailUrl) := by
          unfold bpiKey
          rw [if_neg h1, if_pos h2]
        have hL : bpiDedupAux (p :: rest) ids urls =
            if urls.contains p.detailUrl then bpiDedupAux rest ids urls
            else p :: bpiDedupAux rest ids (p.detailUrl :: urls) := by
          conv_lhs => unfold bpiDedupAux
          rw [if_neg h1, if_pos h2]
        rw [hL,
          keepFirstBy_cons_some bpiKey p rest prior (false, p.detailUrl) hk]
        have hmemiff : (false, p.detailUrl) ∈ prior ↔ p.detailUrl ∈ urls :=
          hcorr _
        by_cases hm : p.detailUrl ∈ urls
        · rw [if_pos (by simpa using hm), if_pos (hmemiff.mpr hm)]
          exact ih ids urls prior hcorr
        · rw [if_neg (by simpa using hm),
            if_neg (fun hc => hm (hmemiff.mp hc))]
          congr 1
          apply ih ids (p.detailUrl :: urls) ((false, p.detailUrl) :: prior)
          intro k
          obtain ⟨kb, ks⟩ := k
          cases kb with
          | true =>
            show (true, ks) ∈ (false, p.detailUrl) :: prior ↔ ks ∈ ids
            constructor
            · intro hkm
              rcases List.mem_cons.mp hkm with he | hkm
              · injection he with hb _
                cases hb
              · exact (hcorr (true, ks)).mp hkm
            · intro hks
              exact List.mem_cons_of_mem _ ((hcorr (true, ks)).mpr hks)
          | false =>
            show (false, ks) ∈ (false, p.detailUrl) :: prior ↔
              ks ∈ p.detailUrl :: urls
            constructor
            · intro hkm
              rcases List.mem_cons.mp hkm with he | hkm
              · exact List.mem_cons.mpr (Or.inl (congrArg Prod.snd he))
              · exact List.mem_cons_of_mem _ ((hcorr (false, ks)).mp hkm)
            · intro hks
              rcases List.mem_cons.mp hks with he | hks
              · exact List.mem_cons.mpr (Or.inl (by rw [he]))
              · exact List.mem_cons_of_mem _ ((hcorr (false, ks)).mpr hks)
      · have hk : bpiKey p = none := by
          unfold bpiKey
          rw [if_neg h1, if_neg h2]
        have hL : bpiDedupAux (p :: rest) ids urls =
            p :: bpiDedupAux rest ids urls := by
          conv_lhs => unfold bpiDedupAux
          rw [if_neg h1, if_neg h2]
        rw [hL, keepFirstBy_cons_none bpiKey p rest prior hk]
        congr 1
        exact ih ids urls prior hcorr

theorem bpiDedup_eq_keepFirstBy (l : List BPIRec) :
    bpiDedup l = keepFirstBy bpiKey l [] := by
  apply bpiDedupAux_eq_keepFirstBy
  intro k
  obtain ⟨kb, ks⟩ := k
  cases kb with
  | true =>
    show (true, ks) ∈ ([] : List (Bool × String)) ↔ ks ∈ ([] : List String)
    simp
  | false =>
    show (false, ks) ∈ ([] : List (Bool × String)) ↔ ks ∈ ([] : List String)
    simp

/-! ## Key-set preservation of the extraction steps -/

theorem dictKeys_dictSet_mem {α : Type} (d : List (String × α))
    (ks : List String) (k : String) (v : α) (hd : dictKeys d = ks)
    (hk : k ∈ ks) : dictKeys (dictSet d k v) = ks := by
  subst hd
  exact dictKeys_dictSet d k v (by simpa using hk)

theorem bpiInit_keys : dictKeys bpiInit = bpiFieldNames := rfl

theorem bpiHrefSet_keys (d : List (String × String)) (href : String)
    (hd : dictKeys d = bpiFieldNames) :
    dictKeys (bpiHrefSet d href) = bpiFieldNames := by
  unfold bpiHrefSet
  repeat' split
  all_goals
    repeat' first
      | exact hd
      | refine dictKeys_dictSet_mem _ _ _ _ ?_ (by decide)

theorem bpiTypeSet_keys (d : List (String × String)) (t : String)
    (hd : dictKeys d = bpiFieldNames) :
    dictKeys (bpiTypeSet d t) = bpiFieldNames := by
  unfold bpiTypeSet
  repeat' split
  all_goals
    repeat' first
      | exact hd
      | refine dictKeys_dictSet_mem _ _ _ _ ?_ (by decide)

theorem bpiLinkStep_keys (d : List (String × String)) (ol : Option BPILink)
    (hd : dictKeys d = bpiFieldNames) :
    dictKeys (bpiLinkStep d ol) = bpiFieldNames := by
  cases ol with
  | none => exact hd
  | some l =>
    exact bpiTypeSet_keys _ _
      (dictKeys_dictSet_mem _ _ _ _ (bpiHrefSet_keys d l.href hd) (by decide))

theorem bpiImgStep_keys (d : List (String × String)) (os : Option String)
    (hd : dictKeys d = bpiFieldNames) :
    dictKeys (bpiImgStep d os) = bpiFieldNames := by
  cases os with
  | none => exact hd
  | some src =>
    show dictKeys (if src ≠ "" then dictSet d "image_url" (bpiFixSrc src)
      else d) = bpiFieldNames
    by_cases hsrc : src ≠ ""
    · rw [if_pos hsrc]
      refine dictKeys_dictSet_mem _ _ _ _ hd ?_
      decide
    · rw [if_neg hsrc]
      exact hd

theorem bpiParaStep_keys (d : List (String × String)) (text : String)
    (hd : dictKeys d = bpiFieldNames) :
    dictKeys (bpiParaStep d text) = bpiFieldNames := by
  unfold bpiParaStep
  by_cases h1 : pyStartsWith text "Location:" = true
  · rw [if_pos h1]
    refine dictKeys_dictSet_mem _ _ _ _ hd ?_
    decide
  · rw [if_neg h1]
    by_cases h2 : pyStartsWith text "Price:" = true
    · rw [if_pos h2]
      refine dictKeys_dictSet_mem _ _ _ _ hd ?_
      decide
    · rw [if_neg h2]
      by_cases h3 : text ≠ ""
      · rw [if_pos h3]
        by_cases h4 : dictGet d "address" = some "NA"
        · rw [if_pos h4]
          refine dictKeys_dictSet_mem _ _ _ _ hd ?_
          decide
        · rw [if_neg h4]
          exact hd
      · rw [if_neg h3]
        exact hd

theorem bpiParaFold_keys (ps : List String) (d : List (String × String))
    (hd : dictKeys d = bpiFieldNames) :
    dictKeys (ps.foldl bpiParaStep d) = bpiFieldNames := by
  induction ps generalizing d with
  | nil => exact hd
  | cons p rest ih =>
    rw [List.foldl_cons]
    exact ih _ (bpiParaStep_keys d p hd)

theorem bpiExtractSingle_keys (f : BPIFragment) :
    dictKeys (bpiExtractSingle f) = bpiFieldNames :=
  bpiParaFold_keys _ _
    (bpiImgStep_keys _ _ (bpiLinkStep_keys _ _ bpiInit_keys))

theorem normStep_keys (acc : List (String × String)) (kv : String × String)
    (hacc : dictKeys acc = expectedFields) :
    dictKeys (normStep acc kv) = expectedFields := by
  unfold normStep
  split
  next hcond =>
    rcases Bool.and_eq_true _ _ |>.mp hcond with ⟨h1, _⟩
    rw [← hacc]
    exact dictKeys_dictSet _ _ _ h1
  next => exact hacc

theorem normalizeData_keys (d : List (String × String)) :
    dictKeys (normalizeData d) = expectedFields := by
  unfold normalizeData
  have base : dictKeys (expectedFields.map (fun k => (k, "NA"))) =
      expectedFields := rfl
  generalize expectedFields.map (fun k => (k, "NA")) = acc at base ⊢
  induction d generalizing acc with
  | nil => exact base
  | cons kv rest ih => exact ih _ (normStep_keys acc kv base)

/-- C1: for both concrete extraction schemas (the BPI result-container
schema of extract_single_property and the base-scraper schema of
normalize_data), extraction of any fragment returns a record whose key
set is exactly the declared field list, every declared key is present
with a string value, and a fragment resolving nothing yields the all-NA
default record. -/
theorem C1_record_keys_complete :
    (∀ f : BPIFragment, dictKeys (bpiExtractSingle f) = bpiFieldNames) ∧
    (∀ d : List (String × String),
      dictKeys (normalizeData d) = expectedFields) ∧
    (∀ (f : BPIFragment) (k : String), k ∈ bpiFieldNames →
      ∃ v, dictGet (bpiExtractSingle f) k = some v) ∧
    bpiExtractSingle ⟨none, none, []⟩ = bpiInit := by
  refine ⟨bpiExtractSingle_keys, normalizeData_keys, ?_, rfl⟩
  intro f k hk
  exact dictGet_isSome_of_mem_keys _ _ (by rw [bpiExtractSingle_keys f]; exact hk)

/-- Witness for C1 at the empty fragment and the price field. -/
theorem C1_record_keys_complete_witness :
    ("price" ∈ bpiFieldNames) ∧
    ∃ v, dictGet (bpiExtractSingle ⟨none, none, []⟩) "price" = some v :=
  ⟨by decide, C1_record_keys_complete.2.2.1 ⟨none, none, []⟩ "price" (by decide)⟩

/-- C2 (amended): both deduplicators are stable and keep exactly the
first occurrence of every identity-key group: each output is a
subsequence of its input (order preserved) equal to the left-to-right
first-occurrence scan keepFirstBy; retained keys are pairwise distinct, a
record whose key has not occurred earlier is always retained, and a
record whose key did occur earlier is dropped, leaving the rest of the
scan unchanged.  The BPI save_properties key is the usable property_id,
else the usable detail_url, else no key (bpiKey); its keyless (sentinel)
records are all retained, and the occurrence-count of sentinel records is
preserved.  The Eastwest remove_duplicates key is the concatenation
property_no|url with no sentinel exemption, so (counterexample) two
records whose only candidate keys are both NA share one key and the
second is removed. -/
theorem C2_dedup_stable_sentinel :
    (∀ l : List BPIRec, (bpiDedup l).Sublist l) ∧
    (∀ l : List BPIRec,
      (bpiDedup l).filter bpiSentinel = l.filter bpiSentinel) ∧
    (∀ l : List EWRec, (ewDedup l).Sublist l) ∧
    (∀ (l : List EWRec) (p : EWRec), p ∈ l →
      ∃ q ∈ ewDedup l, ewKey q = ewKey p) ∧
    (∀ l : List EWRec,
      ewDedup l = keepFirstBy (fun q => some (ewKey q)) l []) ∧
    (∀ l : List BPIRec, bpiDedup l = keepFirstBy bpiKey l []) ∧
    (∀ l : List EWRec,
      (ewDedup l).Pairwise (fun a b => ewKey a ≠ ewKey b)) ∧
    (∀ l : List BPIRec,
      (bpiDedup l).Pairwise
        (fun a b => ∀ k, bpiKey a = some k → bpiKey b ≠ some k)) ∧
    (∀ (l1 : List EWRec) (p : EWRec) (l2 : List EWRec),
      ewKey p ∉ l1.map ewKey → p ∈ ewDedup (l1 ++ p :: l2)) ∧
    (∀ (l1 : List EWRec) (p : EWRec) (l2 : List EWRec),
      ewKey p ∈ l1.map ewKey →
      ewDedup (l1 ++ p :: l2) = ewDedup (l1 ++ l2)) ∧
    (∀ (l1 : List BPIRec) (p : BPIRec) (l2 : List BPIRec)
        (k : Bool × String),
      bpiKey p = some k → (∀ q ∈ l1, bpiKey q ≠ some k) →
      p ∈ bpiDedup (l1 ++ p :: l2)) ∧
    (∀ (l1 : List BPIRec) (p : BPIRec) (l2 : List BPIRec),
      bpiKey p = none → p ∈ bpiDedup (l1 ++ p :: l2)) ∧
    (∀ (l1 : List BPIRec) (p : BPIRec) (l2 : List BPIRec)
        (k : Bool × String),
      bpiKey p = some k → (∃ q ∈ l1, bpiKey q = some k) →
      bpiDedup (l1 ++ p :: l2) = bpiDedup (l1 ++ l2)) := by
  refine ⟨fun l => bpiDedupAux_sublist l [] [],
    fun l => bpiDedupAux_keeps_sentinels l [] [],
    fun l => ewDedupAux_sublist l [],
    fun l p hp => ?_, fun l => ewDedupAux_eq_keepFirstBy l [],
    bpiDedup_eq_keepFirstBy, ?_, ?_, ?_, ?_, ?_, ?_, ?_⟩
  · rcases ewDedupAux_covers l [] p hp with h | h
    · cases h
    · exact h
  · intro l
    rw [show ewDedup l = keepFirstBy (fun q => some (ewKey q)) l [] from
      ewDedupAux_eq_keepFirstBy l []]
    refine List.Pairwise.imp ?_
      (keepFirstBy_pairwise (fun q : EWRec => some (ewKey q)) l []).1
    intro a b h he
    exact h (ewKey a) rfl (congrArg some he).symm
  · intro l
    rw [bpiDedup_eq_keepFirstBy l]
    exact (keepFirstBy_pairwise bpiKey l []).1
  · intro l1 p l2 h
    rw [show ewDedup (l1 ++ p :: l2)
        = keepFirstBy (fun q => some (ewKey q)) (l1 ++ p :: l2) [] from
      ewDedupAux_eq_keepFirstBy _ []]
    refine keepFirstBy_keep_some _ l1 p l2 [] (ewKey p) rfl (by simp) ?_
    intro q hq heq
    injection heq with he
    exact h (List.mem_map.mpr ⟨q, hq, he⟩)
  · intro l1 p l2 h
    show ewDedupAux (l1 ++ p :: l2) [] = ewDedupAux (l1 ++ l2) []
    rw [ewDedupAux_eq_keepFirstBy, ewDedupAux_eq_keepFirstBy]
    refine keepFirstBy_drop _ l1 p l2 [] (ewKey p) rfl (Or.inr ?_)
    rcases List.mem_map.mp h with ⟨q, hq, he⟩
    exact ⟨q, hq, by rw [he]⟩
  · intro l1 p l2 k hk hl1
    rw [bpiDedup_eq_keepFirstBy]
    exact keepFirstBy_keep_some bpiKey l1 p l2 [] k hk (by simp) hl1
  · intro l1 p l2 hk
    rw [bpiDedup_eq_keepFirstBy]
    exact keepFirstBy_keep_none bpiKey l1 p l2 [] hk
  · intro l1 p l2 k hk hex
    rw [bpiDedup_eq_keepFirstBy, bpiDedup_eq_keepFirstBy]
    exact keepFirstBy_drop bpiKey l1 p l2 [] k hk (Or.inr hex)

/-- Counterexample to C2 as stated: EastwestBankScraper.remove_duplicates
merges two distinct records both of whose candidate identity keys hold
the NA sentinel, because its composite key has no sentinel exemption; the
second record is removed. -/
theorem C2_counterexample :
    ewDedup [EWRec.mk "NA" "NA" 0, EWRec.mk "NA" "NA" 1]
      = [EWRec.mk "NA" "NA" 0] := by decide

/-- Witness for C2: the covering clause at a one-record list, the
first-occurrence-kept clause at a fresh-key record after one other
record, and the duplicate-dropped clause at a second occurrence of a
key. -/
theorem C2_dedup_stable_sentinel_witness :
    (∃ q ∈ ewDedup [EWRec.mk "X-123" "u" 0],
      ewKey q = ewKey (EWRec.mk "X-123" "u" 0)) ∧
    EWRec.mk "A" "u1" 0 ∈
      ewDedup ([EWRec.mk "B" "u2" 7] ++ EWRec.mk "A" "u1" 0 ::
        [EWRec.mk "A" "u1" 1]) ∧
    ewDedup ([EWRec.mk "A" "u1" 0] ++ EWRec.mk "A" "u1" 1 :: []) =
      ewDedup ([EWRec.mk "A" "u1" 0] ++ []) :=
  ⟨C2_dedup_stable_sentinel.2.2.2.1 _ _ (by decide),
    C2_dedup_stable_sentinel.2.2.2.2.2.2.2.2.1
      [EWRec.mk "B" "u2" 7] (EWRec.mk "A" "u1" 0) [EWRec.mk "A" "u1" 1]
      (by decide),
    C2_dedup_stable_sentinel.2.2.2.2.2.2.2.2.2.1
      [EWRec.mk "A" "u1" 0] (EWRec.mk "A" "u1" 1) [] (by decide)⟩

theorem pySliceUpTo_natCast {α : Type} (m : Nat) (l : List α) :
    pySliceUpTo (some (m : Int)) l = l.take m := by
  have h : ¬((m : Int) < 0) := Int.not_lt.mpr (Int.natCast_nonneg m)
  show (if (m : Int) < 0 then l.take (l.length - (m : Int).natAbs)
    else l.take (m : Int).toNat) = l.take m
  rw [if_neg h, Int.toNat_natCast]

/-! ## Fragment loop lemmas -/

theorem extractLoop_eq_filterMap {α β : Type} (f : α → Option β)
    (l : List α) : extractLoop f l = l.filterMap f := by
  induction l with
  | nil => rfl
  | cons c rest ih =>
    unfold extractLoop
    cases hc : f c with
    | none => rw [ih, List.filterMap_cons, hc]
    | some r => rw [ih, List.filterMap_cons, hc]

/-- C7: the per-fragment loop extracts every fragment independently: its
output is exactly the in-order list of successful extractions, and a
fragment whose extraction fails is dropped alone, with the records of the
fragments before and after it untouched and in original order. -/
theorem C7_fragment_failure_isolation :
    (∀ (α β : Type) (f : α → Option β) (l : List α),
      extractLoop f l = l.filterMap f) ∧
    (∀ (α β : Type) (f : α → Option β) (l1 l2 : List α) (c : α),
      f c = none →
      extractLoop f (l1 ++ c :: l2)
        = extractLoop f l1 ++ extractLoop f l2) := by
  refine ⟨fun α β f l => extractLoop_eq_filterMap f l, ?_⟩
  intro α β f l1 l2 c hc
  rw [extractLoop_eq_filterMap, extractLoop_eq_filterMap,
    extractLoop_eq_filterMap, List.filterMap_append, List.filterMap_cons, hc]

/-- Witness for C7: dropping the failing middle fragment keeps the other
two records in order. -/
theorem C7_fragment_failure_isolation_witness :
    extractLoop (fun n : Nat => if n == 2 then none else some n) [1, 2, 3]
      = extractLoop (fun n : Nat => if n == 2 then none else some n) [1]
        ++ extractLoop (fun n : Nat => if n == 2 then none else some n) [3] :=
  C7_fragment_failure_isolation.2 Nat Nat _ [1] [3] 2 rfl

/-- C3: the boundary-marker locator tries the direct pass, the
title-anchored ancestor walk and the actions-anchored ancestor walk in
order, and a later pass is used only when every earlier pass produced
zero fragments; in particular a document where the direct pass is empty
but the title-anchored walk succeeds yields the ancestor-walk
fragments. -/
theorem C3_locator_fallback_order :
    (∀ doc : Node, ewMethod1 doc ≠ [] →
      findPropertyBlocks doc = ewMethod1 doc) ∧
    (∀ doc : Node, ewMethod1 doc = [] → ewMethod2 doc ≠ [] →
      findPropertyBlocks doc = ewMethod2 doc) ∧
    (∀ doc : Node, ewMethod1 doc = [] → ewMethod2 doc = [] →
      findPropertyBlocks doc = ewMethod3 doc) := by
  have hshow : ∀ doc : Node, findPropertyBlocks doc =
      if (ewMethod1 doc).isEmpty then
        (if (ewMethod2 doc).isEmpty then ewMethod3 doc else ewMethod2 doc)
      else ewMethod1 doc := fun doc => rfl
  refine ⟨?_, ?_, ?_⟩
  · intro doc h1
    rw [hshow, if_neg (by simpa [List.isEmpty_iff] using h1)]
  · intro doc h1 h2
    rw [hshow, if_pos (by simpa [List.isEmpty_iff] using h1),
      if_neg (by simpa [List.isEmpty_iff] using h2)]
  · intro doc h1 h2
    rw [hshow, if_pos (by simpa [List.isEmpty_iff] using h1),
      if_pos (by simpa [List.isEmpty_iff] using h2)]

/-- Witness for C3: on the example document the direct pass finds
nothing (the qualifying container is a list item, which the direct pass
never inspects) and the title-anchored walk returns it. -/
theorem C3_locator_fallback_order_witness :
    findPropertyBlocks exDoc = ewMethod2 exDoc ∧ ewMethod2 exDoc = [exLi] := by
  have h2 : ewMethod2 exDoc = [exLi] := rfl
  refine ⟨C3_locator_fallback_order.2.1 exDoc rfl ?_, h2⟩
  rw [h2]
  exact List.cons_ne_nil _ _

/-- C4: is_header_row classifies a non-empty row as a header exactly when
its keyword count meets the 30 percent threshold of the eight recognised
keywords with the boundary included (count >= 2.4, attainable first at
three keywords); a disclaimer-free row with three keywords is a header, a
row with two keywords is not, and no count equals exactly 30 percent of
the keyword list, so the boundary itself is realised at three. -/
theorem C4_header_threshold :
    (∀ row : List String, isHeaderRow row = true ↔
      (row ≠ [] ∧ 10 * keywordCount row ≥ 3 * headerKeywords.length)) ∧
    (isHeaderRow ["PROPERTY", "LOCATION", "PRICE"] = true ∧
      isDisclaimerRow ["PROPERTY", "LOCATION", "PRICE"] = false) ∧
    isHeaderRow ["PROPERTY", "LOCATION"] = false ∧
    (∀ n : Nat, 10 * n ≠ 3 * headerKeywords.length) := by
  refine ⟨?_, ⟨by decide, by decide⟩, by decide, ?_⟩
  · intro row
    unfold isHeaderRow
    by_cases h : row.isEmpty = true
    · rw [if_pos h]
      have : row = [] := List.isEmpty_iff.mp h
      simp [this]
    · rw [if_neg h]
      have hne : row ≠ [] := by simpa [List.isEmpty_iff] using h
      simp only [decide_eq_true_eq]
      exact ⟨fun hp => ⟨hne, hp⟩, fun hp => hp.2⟩
  · intro n hn
    have hlen : headerKeywords.length = 8 := rfl
    rw [hlen] at hn
    omega

/-- Witness for C4 at a three-keyword row. -/
theorem C4_header_threshold_witness :
    isHeaderRow ["PROPERTY", "AREA", "TYPE"] = true :=
  (C4_header_threshold.1 _).mpr ⟨by decide, by decide⟩

/-- C10: the base scrape truncates the extracted list to the first
max_results entries, in order, before the per-property finalisation, so
the returned and persisted list has length min m N; the default cap is
the MAX_RESULTS_PER_BANK default 20, and the None cap of Eastwest Bank
keeps every record. -/
theorem C10_result_cap :
    (∀ (α : Type) (finalize : α → α) (props : List α) (m : Nat),
      baseScrape (some (m : Int)) finalize props
        = (props.take m).map finalize) ∧
    (∀ (α : Type) (finalize : α → α) (props : List α) (m : Nat),
      (baseScrape (some (m : Int)) finalize props).length
        = min m props.length) ∧
    (∀ (α : Type) (finalize : α → α) (props : List α),
      baseScrape eastwestMaxResults finalize props = props.map finalize) ∧
    MAX_RESULTS_PER_BANK = 20 := by
  have h1 : ∀ (α : Type) (finalize : α → α) (props : List α) (m : Nat),
      baseScrape (some (m : Int)) finalize props
        = (props.take m).map finalize := by
    intro α fin props m
    unfold baseScrape
    rw [pySliceUpTo_natCast]
  refine ⟨h1, ?_, fun α fin props => rfl, rfl⟩
  intro α fin props m
  rw [h1, List.length_map, List.length_take]


/-! ## Field preservation of the BPI extraction steps (claim C9) -/

theorem dictGet_bpiParaStep_ne (d : List (String × String)) (text k : String)
    (h1 : k ≠ "location") (h2 : k ≠ "price") (h3 : k ≠ "address") :
    dictGet (bpiParaStep d text) k = dictGet d k := by
  unfold bpiParaStep
  by_cases c1 : pyStartsWith text "Location:" = true
  · rw [if_pos c1, dictGet_dictSet_ne _ _ _ _ (Ne.symm h1)]
  · rw [if_neg c1]
    by_cases c2 : pyStartsWith text "Price:" = true
    · rw [if_pos c2, dictGet_dictSet_ne _ _ _ _ (Ne.symm h2)]
    · rw [if_neg c2]
      by_cases c3 : text ≠ ""
      · rw [if_pos c3]
        by_cases c4 : dictGet d "address" = some "NA"
        · rw [if_pos c4, dictGet_dictSet_ne _ _ _ _ (Ne.symm h3)]
        · rw [if_neg c4]
      · rw [if_neg c3]

theorem dictGet_bpiParaFold_ne (ps : List String)
    (d : List (String × String)) (k : String) (h1 : k ≠ "location")
    (h2 : k ≠ "price") (h3 : k ≠ "address") :
    dictGet (ps.foldl bpiParaStep d) k = dictGet d k := by
  induction ps generalizing d with
  | nil => rfl
  | cons p rest ih =>
    rw [List.foldl_cons, ih _, dictGet_bpiParaStep_ne d p k h1 h2 h3]

theorem dictGet_bpiImgStep_ne (d : List (String × String))
    (os : Option String) (k : String) (h : k ≠ "image_url") :
    dictGet (bpiImgStep d os) k = dictGet d k := by
  cases os with
  | none => rfl
  | some src =>
    show dictGet (if src ≠ "" then dictSet d "image_url" (bpiFixSrc src)
      else d) k = dictGet d k
    by_cases hs : src ≠ ""
    · rw [if_pos hs, dictGet_dictSet_ne _ _ _ _ (Ne.symm h)]
    · rw [if_neg hs]

theorem dictGet_bpiTypeSet_ne (d : List (String × String)) (t k : String)
    (h : k ≠ "property_type") :
    dictGet (bpiTypeSet d t) k = dictGet d k := by
  unfold bpiTypeSet
  cases typeMatch t with
  | none => rfl
  | some s => exact dictGet_dictSet_ne _ _ _ _ (Ne.symm h)

theorem dictGet_bpiHrefSet_type (href : String) :
    dictGet (bpiHrefSet bpiInit href) "property_type" = some "NA" := by
  unfold bpiHrefSet
  by_cases hh : href ≠ ""
  · rw [if_pos hh]
    cases searchPropId href.toList with
    | none => rw [dictGet_dictSet_ne _ _ _ _ (by decide)]; rfl
    | some pid =>
      rw [dictGet_dictSet_ne _ _ _ _ (by decide),
        dictGet_dictSet_ne _ _ _ _ (by decide)]
      rfl
  · rw [if_neg hh]
    rfl

theorem bpiExtractSingle_type (f : BPIFragment) (l : BPILink)
    (hf : f.h4Link = some l) :
    dictGet (bpiExtractSingle f) "property_type"
      = some (bpiTitleType l.text) := by
  unfold bpiExtractSingle
  rw [dictGet_bpiParaFold_ne _ _ _ (by decide) (by decide) (by decide),
    dictGet_bpiImgStep_ne _ _ _ (by decide), hf]
  show dictGet (bpiTypeSet (dictSet (bpiHrefSet bpiInit l.href) "title"
    l.text) l.text) "property_type" = some (bpiTitleType l.text)
  unfold bpiTypeSet bpiTitleType
  cases htm : typeMatch l.text with
  | some s => rw [dictGet_dictSet_self]
  | none =>
    rw [dictGet_dictSet_ne _ _ _ _ (by decide), dictGet_bpiHrefSet_type]

theorem bpiExtractSingle_id (f : BPIFragment) (l : BPILink)
    (hf : f.h4Link = some l) :
    dictGet (bpiExtractSingle f) "property_id" = some (bpiUrlId l.href) := by
  unfold bpiExtractSingle
  rw [dictGet_bpiParaFold_ne _ _ _ (by decide) (by decide) (by decide),
    dictGet_bpiImgStep_ne _ _ _ (by decide), hf]
  show dictGet (bpiTypeSet (dictSet (bpiHrefSet bpiInit l.href) "title"
    l.text) l.text) "property_id" = some (bpiUrlId l.href)
  rw [dictGet_bpiTypeSet_ne _ _ _ (by decide),
    dictGet_dictSet_ne _ _ _ _ (by decide)]
  unfold bpiHrefSet bpiUrlId
  by_cases hh : l.href ≠ ""
  · rw [if_pos hh, if_pos hh]
    cases searchPropId l.href.toList with
    | none => rw [dictGet_dictSet_ne _ _ _ _ (by decide)]; rfl
    | some pid => rw [dictGet_dictSet_self]
  · rw [if_neg hh, if_neg hh]
    rfl

/-- C9 (amended): the property type is derived from the already-extracted
title as a pure function (the stripped prefix before the first opening
parenthesis), and for the scenario fragment whose title is House & Lot
(03997-O-247) and whose detail URL is /property/03997-O-247 the record
carries type House & Lot and id 03997-O-247; the id, however, is computed
from the detail URL by the /property/ pattern, not from the parentheses
of the title. -/
theorem C9_title_type_derivation :
    (∀ (f : BPIFragment) (l : BPILink), f.h4Link = some l →
      dictGet (bpiExtractSingle f) "property_type"
        = some (bpiTitleType l.text)) ∧
    (∀ (f : BPIFragment) (l : BPILink), f.h4Link = some l →
      dictGet (bpiExtractSingle f) "property_id"
        = some (bpiUrlId l.href)) ∧
    (dictGet (bpiExtractSingle exBPIFrag) "property_type"
        = some "House & Lot" ∧
      dictGet (bpiExtractSingle exBPIFrag) "property_id"
        = some "03997-O-247") :=
  ⟨bpiExtractSingle_type, bpiExtractSingle_id, by decide, by decide⟩

/-- Counterexample to C9 as stated: a fragment whose title text is the
scenario title but whose anchor has an empty href yields property_id NA,
not the identifier in the parentheses of the title, because
extract_single_property derives the id from the URL and not from the
title. -/
theorem C9_counterexample :
    dictGet (bpiExtractSingle exBPIFragNoUrl) "title"
        = some "House & Lot (03997-O-247)" ∧
    dictGet (bpiExtractSingle exBPIFragNoUrl) "property_type"
        = some "House & Lot" ∧
    dictGet (bpiExtractSingle exBPIFragNoUrl) "property_id" = some "NA" := by
  refine ⟨by decide, by decide, by decide⟩

/-- Witness for C9 at the scenario fragment. -/
theorem C9_title_type_derivation_witness :
    dictGet (bpiExtractSingle exBPIFrag) "property_type"
      = some (bpiTitleType "House & Lot (03997-O-247)") :=
  C9_title_type_derivation.1 exBPIFrag
    ⟨"/property/03997-O-247", "House & Lot (03997-O-247)"⟩ rfl


/-! ## Metrobank data-region characterisation (claims C6 and C8) -/

theorem mbProcessRows_eq (header : List String)
    (rows : List (List (Option String))) :
    mbProcessRows header rows
      = ((rows.filter mbKeepRow).map
          (fun row => mbBuildRec header (rowStr row))).filter
          hasMeaningfulData := by
  induction rows with
  | nil => rfl
  | cons row rest ih =>
    have hstep : mbProcessRows header (row :: rest) =
        if row.isEmpty then mbProcessRows header rest
        else if (!(rowStr row).any (fun c => c ≠ "")
            || decide (((rowStr row).filter (fun c => c ≠ "")).length < 2)) then
          mbProcessRows header rest
        else if (isHeaderRow (rowStr row) || isDisclaimerRow (rowStr row)) then
          mbProcessRows header rest
        else if hasMeaningfulData (mbBuildRec header (rowStr row)) then
          mbBuildRec header (rowStr row) :: mbProcessRows header rest
        else mbProcessRows header rest := rfl
    rw [hstep]
    by_cases c1 : row.isEmpty = true
    · have hk : mbKeepRow row = false := by
        simp [mbKeepRow, c1]
      rw [if_pos c1, ih, List.filter_cons, hk]
      simp
    · rw [if_neg c1]
      by_cases c2 : (!(rowStr row).any (fun c => c ≠ "")
          || decide (((rowStr row).filter (fun c => c ≠ "")).length < 2)) = true
      · have hk : mbKeepRow row = false := by
          apply Bool.eq_false_iff.mpr
          intro hkt
          simp only [mbKeepRow, Bool.and_eq_true, Bool.not_eq_true',
            decide_eq_true_eq] at hkt
          obtain ⟨⟨⟨⟨_, hk2⟩, hk3⟩, _⟩, _⟩ := hkt
          rcases Bool.or_eq_true _ _ |>.mp c2 with h | h
          · rw [Bool.not_eq_true'] at h
            rw [h] at hk2
            cases hk2
          · rw [decide_eq_true_eq] at h
            exact absurd hk3 (Nat.not_le.mpr h)
        rw [if_pos c2, ih, List.filter_cons, hk]
        simp
      · rw [if_neg c2]
        simp only [Bool.or_eq_true, not_or, Bool.not_eq_true',
          decide_eq_true_eq] at c2
        obtain ⟨c2a, c2b⟩ := c2
        have c2a' : (rowStr row).any (fun c => c ≠ "") = true := by
          simpa using c2a
        by_cases c3 : (isHeaderRow (rowStr row)
            || isDisclaimerRow (rowStr row)) = true
        · have hk : mbKeepRow row = false := by
            apply Bool.eq_false_iff.mpr
            intro hkt
            simp only [mbKeepRow, Bool.and_eq_true, Bool.not_eq_true',
              decide_eq_true_eq] at hkt
            obtain ⟨⟨⟨⟨_, _⟩, _⟩, hk4⟩, hk5⟩ := hkt
            rcases Bool.or_eq_true _ _ |>.mp c3 with h | h
            · rw [h] at hk4
              cases hk4
            · rw [h] at hk5
              cases hk5
          rw [if_pos c3, ih, List.filter_cons, hk]
          simp
        · simp only [Bool.or_eq_true, not_or] at c3
          obtain ⟨c3a, c3b⟩ := c3
          have hk : mbKeepRow row = true := by
            simp only [mbKeepRow, Bool.and_eq_true, Bool.not_eq_true',
              decide_eq_true_eq]
            exact ⟨⟨⟨⟨Bool.eq_false_iff.mpr c1, c2a'⟩, Nat.le_of_not_lt c2b⟩,
              Bool.eq_false_iff.mpr c3a⟩, Bool.eq_false_iff.mpr c3b⟩
          rw [if_neg (by simp [c3a, c3b]), ih, List.filter_cons, hk]
          by_cases c4 : hasMeaningfulData (mbBuildRec header (rowStr row)) = true
          · rw [if_pos c4]
            simp [c4]
          · rw [if_neg c4]
            simp [c4]


/-- C8 (amended): after the detected header, the candidate rows run to the
end of the table; a later header-like or disclaimer-like row is skipped
individually, not treated as a terminator, and every row with fewer than
two non-empty cells is skipped; of the remaining rows only those whose
record has meaningful data produce a Record. -/
theorem C8_data_region :
    (∀ table : List (List (Option String)),
      mbProcessTable table =
        match mbFindHeader table with
        | none => []
        | some (header, rest) =>
          ((rest.filter mbKeepRow).map
            (fun row => mbBuildRec header (rowStr row))).filter
            hasMeaningfulData) ∧
    (∀ (header : List String) (rows : List (List (Option String)))
        (row : List (Option String)),
      ((rowStr row).filter (fun c => c ≠ "")).length < 2 →
      mbProcessRows header (row :: rows) = mbProcessRows header rows) := by
  constructor
  · intro table
    unfold mbProcessTable
    cases mbFindHeader table with
    | none => rfl
    | some p => exact mbProcessRows_eq p.1 p.2
  · intro header rows row hlt
    have hstep : mbProcessRows header (row :: rows) =
        if row.isEmpty then mbProcessRows header rows
        else if (!(rowStr row).any (fun c => c ≠ "")
            || decide (((rowStr row).filter (fun c => c ≠ "")).length < 2)) then
          mbProcessRows header rows
        else if (isHeaderRow (rowStr row) || isDisclaimerRow (rowStr row)) then
          mbProcessRows header rows
        else if hasMeaningfulData (mbBuildRec header (rowStr row)) then
          mbBuildRec header (rowStr row) :: mbProcessRows header rows
        else mbProcessRows header rows := rfl
    rw [hstep]
    by_cases c1 : row.isEmpty = true
    · rw [if_pos c1]
    · rw [if_neg c1, if_pos]
      exact Bool.or_eq_true _ _ |>.mpr (Or.inr (decide_eq_true hlt))

/-- Counterexample to C8 as stated: in the example table the second
data row lies beyond a repeated header-like row, yet process_table still
returns its Record, because header-like rows after the header are skipped
rather than ending the region. -/
theorem C8_counterexample :
    mbProcessTable exMBTable =
      [[("PROPERTY NUMBER", "p1"), ("LOCATION DETAIL", "loc1"),
        ("PRICE AMOUNT", "100")],
       [("PROPERTY NUMBER", "p2"), ("LOCATION DETAIL", "loc2"),
        ("PRICE AMOUNT", "200")]] := by decide

/-- Witness for C8 at a one-cell row. -/
theorem C8_data_region_witness :
    mbProcessRows ["PROPERTY"] [[some "x"]] = mbProcessRows ["PROPERTY"] [] :=
  C8_data_region.2 ["PROPERTY"] [] [some "x"] (by decide)


/-! ## PNB row-step analysis (claims C5 and C6) -/

theorem pnbRowStep_cases (st : PNBState) (row : List (Option String))
    (st1 : PNBState) (r? : Option (List (String × Option String)))
    (h : pnbRowStep st row = Except.ok (st1, r?)) :
    (∀ rec, r? = some rec → pnbMainOk rec = true ∧
      ∃ hd, st.header = some hd ∧ rec = pnbBuildRec st hd row) ∧
    (pnbIsHeaderRow row = false → pnbIsMetaRow row = false → st1 = st) := by
  unfold pnbRowStep at h
  repeat' split at h
  all_goals try simp only [Except.ok.injEq, Prod.mk.injEq] at h
  · rename_i hhdr
    obtain ⟨hst, hr⟩ := h
    refine ⟨fun rec hrec => ?_, fun hh1 _ => ?_⟩
    · rw [← hr] at hrec
      cases hrec
    · rw [hh1] at hhdr
      cases hhdr
  · obtain ⟨hst, hr⟩ := h
    exact ⟨fun rec hrec => by (rw [← hr] at hrec; cases hrec),
      fun _ _ => hst.symm⟩
  · exact absurd h (by simp)
  · rename_i hmeta
    obtain ⟨hst, hr⟩ := h
    refine ⟨fun rec hrec => by (rw [← hr] at hrec; cases hrec),
      fun _ hm2 => ?_⟩
    rcases Bool.and_eq_true _ _ |>.mp hmeta with ⟨_, hm⟩
    rw [hm2] at hm
    cases hm
  · obtain ⟨hst, hr⟩ := h
    exact ⟨fun rec hrec => by (rw [← hr] at hrec; cases hrec),
      fun _ _ => hst.symm⟩
  · obtain ⟨hst, hr⟩ := h
    exact ⟨fun rec hrec => by (rw [← hr] at hrec; cases hrec),
      fun _ _ => hst.symm⟩
  · obtain ⟨hst, hr⟩ := h
    exact ⟨fun rec hrec => by (rw [← hr] at hrec; cases hrec),
      fun _ _ => hst.symm⟩
  · rename_i hna hnb hx hd heq hblank hne
    obtain ⟨hst, hr⟩ := h
    refine ⟨fun rec hrec => ?_, fun _ _ => hst.symm⟩
    rw [← hr] at hrec
    by_cases c5 : pnbMainOk (pnbBuildRec st hd row) = true
    · rw [if_pos c5] at hrec
      obtain rfl : pnbBuildRec st hd row = rec := by simpa using hrec
      exact ⟨c5, hd, heq, rfl⟩
    · rw [if_neg c5] at hrec
      cases hrec

theorem pnbBuildRec_carry (st : PNBState) (hd : List String)
    (row : List (Option String)) :
    dictGet (pnbBuildRec st hd row) "Province" = some st.prov ∧
    dictGet (pnbBuildRec st hd row) "City/Municipality" = some st.city := by
  unfold pnbBuildRec
  constructor
  · rw [dictGet_dictSet_ne _ _ _ _ (by decide),
      dictGet_dictSet_ne _ _ _ _ (by decide),
      dictGet_dictSet_ne _ _ _ _ (by decide), dictGet_dictSet_self]
  · rw [dictGet_dictSet_ne _ _ _ _ (by decide),
      dictGet_dictSet_ne _ _ _ _ (by decide), dictGet_dictSet_self]

theorem pnbProcessRows_carry (rows : List (List (Option String)))
    (st st2 : PNBState) (recs : List (List (String × Option String)))
    (hplain : ∀ r ∈ rows, pnbIsHeaderRow r = false ∧ pnbIsMetaRow r = false)
    (h : pnbProcessRows st rows = Except.ok (st2, recs)) :
    ∀ rec ∈ recs, dictGet rec "Province" = some st.prov ∧
      dictGet rec "City/Municipality" = some st.city := by
  induction rows generalizing st st2 recs with
  | nil =>
    unfold pnbProcessRows at h
    simp only [Except.ok.injEq, Prod.mk.injEq] at h
    obtain ⟨_, hr⟩ := h
    intro rec hrec
    rw [← hr] at hrec
    cases hrec
  | cons row rest ih =>
    unfold pnbProcessRows at h
    split at h
    · exact absurd h (by simp)
    · split at h
      · exact absurd h (by simp)
      · rename_i x1 st1 rq heq1 x2 st2p recsp heq2
        simp only [Except.ok.injEq, Prod.mk.injEq] at h
        obtain ⟨hst2, hrecs⟩ := h
        obtain ⟨hemit, hstate⟩ := pnbRowStep_cases st row st1 rq heq1
        have hs : st1 = st :=
          hstate (hplain row (List.mem_cons_self _ _)).1
            (hplain row (List.mem_cons_self _ _)).2
        rw [hs] at heq2
        have htail := ih st st2p recsp
          (fun r hrr => hplain r (List.mem_cons_of_mem _ hrr)) heq2
        intro rec hrec
        rw [← hrecs] at hrec
        cases hq : rq with
        | none =>
          rw [hq] at hrec
          exact htail rec hrec
        | some rec0 =>
          rw [hq] at hrec
          rcases List.mem_cons.mp hrec with he | he
          · obtain ⟨_, hd, hhd, hrec0⟩ := hemit rec0 hq
            rw [he, hrec0]
            exact pnbBuildRec_carry st hd row
          · exact htail rec he

theorem pnbProcessRows_mainOk (rows : List (List (Option String)))
    (st st2 : PNBState) (recs : List (List (String × Option String)))
    (h : pnbProcessRows st rows = Except.ok (st2, recs)) :
    ∀ rec ∈ recs, pnbMainOk rec = true := by
  induction rows generalizing st st2 recs with
  | nil =>
    unfold pnbProcessRows at h
    simp only [Except.ok.injEq, Prod.mk.injEq] at h
    obtain ⟨_, hr⟩ := h
    intro rec hrec
    rw [← hr] at hrec
    cases hrec
  | cons row rest ih =>
    unfold pnbProcessRows at h
    split at h
    · exact absurd h (by simp)
    · split at h
      · exact absurd h (by simp)
      · rename_i x1 st1 rq heq1 x2 st2p recsp heq2
        simp only [Except.ok.injEq, Prod.mk.injEq] at h
        obtain ⟨hst2, hrecs⟩ := h
        obtain ⟨hemit, _⟩ := pnbRowStep_cases st row st1 rq heq1
        intro rec hrec
        rw [← hrecs] at hrec
        cases hq : rq with
        | none =>
          rw [hq] at hrec
          exact ih st1 st2p recsp heq2 rec hrec
        | some rec0 =>
          rw [hq] at hrec
          rcases List.mem_cons.mp hrec with he | he
          · rw [he]
            exact (hemit rec0 hq).1
          · exact ih st1 st2p recsp heq2 rec he

theorem pnbProcessTables_mainOk
    (tables : List (List (List (Option String)))) (st st2 : PNBState)
    (recs : List (List (String × Option String)))
    (h : pnbProcessTables st tables = Except.ok (st2, recs)) :
    ∀ rec ∈ recs, pnbMainOk rec = true := by
  induction tables generalizing st st2 recs with
  | nil =>
    unfold pnbProcessTables at h
    simp only [Except.ok.injEq, Prod.mk.injEq] at h
    obtain ⟨_, hr⟩ := h
    intro rec hrec
    rw [← hr] at hrec
    cases hrec
  | cons t ts ih =>
    unfold pnbProcessTables at h
    split at h
    · exact absurd h (by simp)
    · split at h
      · exact absurd h (by simp)
      · rename_i x1 st1 recs1 heq1 x2 st2p recsp heq2
        simp only [Except.ok.injEq, Prod.mk.injEq] at h
        obtain ⟨hst2, hrecs⟩ := h
        intro rec hrec
        rw [← hrecs] at hrec
        rcases List.mem_append.mp hrec with he | he
        · exact pnbProcessRows_mainOk t _ st1 recs1 heq1 rec he
        · exact ih st1 st2p recsp heq2 rec he


theorem pnbExtract_mainOk (tables : List (List (List (Option String)))) :
    ∀ rec ∈ pnbExtract tables, pnbMainOk rec = true := by
  unfold pnbExtract
  split
  · rename_i x st2 recs heq
    exact pnbProcessTables_mainOk tables _ st2 recs heq
  · intro rec hrec
    cases hrec

theorem pnbRowStep_metadata (st : PNBState) (hd : List String)
    (hh : st.header = some hd) :
    pnbRowStep st [some "Laguna|Calamba|Juan|09171234567"]
      = Except.ok ({ st with
          prov := some "Laguna",
          city := some "Calamba",
          contactP := some "Juan",
          contactD := some "09171234567" }, none) := by
  have h1 : pnbIsHeaderRow [some "Laguna|Calamba|Juan|09171234567"]
      = false := by decide
  have h2 : pnbIsMetaRow [some "Laguna|Calamba|Juan|09171234567"]
      = true := by decide
  have h3 : st.header.isSome = true := by rw [hh]; rfl
  unfold pnbRowStep
  rw [if_neg (by rw [h1]; exact Bool.false_ne_true), if_pos (by rw [h3, h2]; rfl)]
  rfl

/-- C5: while a metadata state holding province Laguna and city Calamba
is in effect, every Record built from rows containing no further header
or metadata row carries Province Laguna and City/Municipality Calamba,
injected on top of the per-column resolution; the metadata row
Laguna|Calamba|Juan|09171234567 installs exactly that state; and on the
example table the two data rows after the metadata row carry
Laguna/Calamba while the data row after the second metadata row carries
the overriding Batangas/Lipa. -/
theorem C5_metadata_carry_over :
    (∀ (rows : List (List (Option String))) (st st2 : PNBState)
        (recs : List (List (String × Option String))),
      (∀ r ∈ rows, pnbIsHeaderRow r = false ∧ pnbIsMetaRow r = false) →
      pnbProcessRows st rows = Except.ok (st2, recs) →
      ∀ rec ∈ recs, dictGet rec "Province" = some st.prov ∧
        dictGet rec "City/Municipality" = some st.city) ∧
    (∀ (st : PNBState) (hd : List String), st.header = some hd →
      pnbRowStep st [some "Laguna|Calamba|Juan|09171234567"]
        = Except.ok ({ st with
            prov := some "Laguna",
            city := some "Calamba",
            contactP := some "Juan",
            contactD := some "09171234567" }, none)) ∧
    (pnbExtract [exPNBTable]).map (fun r => dictGet r "Province")
      = [some (some "Laguna"), some (some "Laguna"),
         some (some "Batangas")] ∧
    (pnbExtract [exPNBTable]).map (fun r => dictGet r "City/Municipality")
      = [some (some "Calamba"), some (some "Calamba"),
         some (some "Lipa")] :=
  ⟨pnbProcessRows_carry, pnbRowStep_metadata, by decide, by decide⟩

/-- Witness for C5: one data row processed in the Laguna/Calamba state
yields a record carrying those values. -/
theorem C5_metadata_carry_over_witness :
    dictGet [("Title_ID", some "T-9"), ("Province", some "Laguna"),
        ("City/Municipality", some "Calamba"), ("Contact Person", none),
        ("Contact Details", none)] "Province" = some (some "Laguna") ∧
    dictGet [("Title_ID", some "T-9"), ("Province", some "Laguna"),
        ("City/Municipality", some "Calamba"), ("Contact Person", none),
        ("Contact Details", none)] "City/Municipality"
      = some (some "Calamba") :=
  C5_metadata_carry_over.1 [[some "T-9", some "x"]]
    ⟨some ["Title_ID"], some "Laguna", some "Calamba", none, none⟩
    ⟨some ["Title_ID"], some "Laguna", some "Calamba", none, none⟩
    [[("Title_ID", some "T-9"), ("Province", some "Laguna"),
      ("City/Municipality", some "Calamba"), ("Contact Person", none),
      ("Contact Details", none)]]
    (by decide) rfl _ (by decide)

/-- C6 (amended): a located Fragment whose fields all fail to resolve is
still passed to the extractor and a default-filled Record is built, but
the orchestrator then filters it out of the output: the PNB pipeline
keeps a Record only when some main field is present (not None, empty or a
dash), and the Metrobank pipeline keeps a Record only when it has
meaningful data. -/
theorem C6_empty_fragment_dropped :
    (∀ tables : List (List (List (Option String))),
      ∀ rec ∈ pnbExtract tables, pnbMainOk rec = true) ∧
    (∀ (header : List String) (rows : List (List (Option String))),
      ∀ rec ∈ mbProcessRows header rows,
        hasMeaningfulData rec = true) := by
  constructor
  · intro tables
    exact pnbExtract_mainOk tables
  · intro header rows rec hrec
    rw [mbProcessRows_eq] at hrec
    exact List.of_mem_filter hrec

/-- Counterexample to C6 as stated: in the PNB example table the data row
is located and extracted but no main field resolves (Title_ID is a dash),
and in the Metrobank example the data row has two non-empty cells but all
beyond the header columns; both pipelines drop the Fragment, returning no
Record at all. -/
theorem C6_counterexample :
    pnbExtract [exPNBDropTable] = [] ∧
    mbProcessTable exMBDropTable = [] := by
  refine ⟨by decide, by decide⟩

/-- Witness for C6 at the first record of the example table. -/
theorem C6_empty_fragment_dropped_witness :
    pnbMainOk [("Title_ID", some "T-1"),
      ("Location/Description", some "Lot in Calamba"),
      ("Province", some "Laguna"), ("City/Municipality", some "Calamba"),
      ("Contact Person", some "Juan"),
      ("Contact Details", some "09171234567")] = true :=
  C6_empty_fragment_dropped.1 [exPNBTable] _ (by decide)

end Scraper
